import Mathlib

/-!
# Group journal (`src/main.go`): students, grades, averages, filters, statistics

A shallow embedding of the Go program and the properties of its operations.

Conventions of the embedding

* Go `int` is the 64-bit two's-complement integer of the usual targets: a value is an `Int`
  and every `+`/`++` of the source goes through `wrap64`.
* A finite `float64` is the rational number it denotes.  `roundF64` is the IEEE-754 binary64
  rounding (nearest, ties to even) of an exact rational; a float operation of the source is the
  exact operation followed by `roundF64`.  `F64` adds NaN and the infinities, which only the
  user-supplied filter bounds can be.
* A `map[int]*Student` is an association list with distinct keys (`AList`); its entry order
  stands for the order in which a `range` loop happens to visit the map.
* `sort.Slice` belongs to the Go standard library; it is a parameter (`SliceSorter`) that carries
  its documented contract, and `insertionSorter` is one executable instance.
* `len` of a slice or map is its number of elements; a Go slice or map has fewer than 2^63.
* Printing (`fmt.Printf`, the menu) and reading the console are left out; an operation returns
  the values it would print or return.
-/

namespace GroupJournal

/-! ## Machine integers -/

/-- Two's-complement reduction of a mathematical integer to the range of Go's 64-bit `int`. -/
def wrap64 (x : Int) : Int := (x + 2 ^ 63) % 2 ^ 64 - 2 ^ 63

/-! ## float64 -/

/-- Round a rational to the nearest integer, a tie going to the even neighbour. -/
def roundNearestEven (x : ℚ) : Int :=
  let f := ⌊x⌋
  let r := x - f
  if r < 1 / 2 then f
  else if 1 / 2 < r then f + 1
  else if f % 2 = 0 then f else f + 1

/-- Exponent of the unit in the last place of the binary64 binade that holds `q`
(53-bit significand, smallest normal exponent -1022; below it the spacing stays 2^-1074). -/
def ulpExp (q : ℚ) : Int := max (Int.log 2 |q|) (-1022) - 52

/-- IEEE-754 binary64 rounding of an exact rational: the multiple of the unit in the last place
nearest to `q`, ties to even.  Overflow to an infinity (results of magnitude 2^1024 and more) is
not represented; the quotients of this program stay below 2^68 (`AverageScore_abs_le`). -/
def roundF64 (q : ℚ) : ℚ :=
  (roundNearestEven (q / (2 : ℚ) ^ ulpExp q) : ℚ) * (2 : ℚ) ^ ulpExp q

/-- The unit roundoff of binary64: the largest relative error of one rounding. -/
def unitRoundoff : ℚ := (2 : ℚ) ^ (-53 : ℤ)

/-- Half the spacing of the subnormal float64 values: the largest error of one rounding below
the normal range. -/
def halfSubnormal : ℚ := (2 : ℚ) ^ (-1075 : ℤ)

/-- Conversion `float64(n)` of a Go `int`. -/
def float64OfInt (n : Int) : ℚ := roundF64 (n : ℚ)

/-- Division `x / y` of two finite float64 values, `y` non-zero. -/
def fdiv (x y : ℚ) : ℚ := roundF64 (x / y)

/-- Addition `x + y` of two finite float64 values. -/
def fadd (x y : ℚ) : ℚ := roundF64 (x + y)

/-- Multiplication `x * y` of two finite float64 values. -/
def fmul (x y : ℚ) : ℚ := roundF64 (x * y)

/-- A float64 value: a finite one (the rational it denotes; the two zeros compare equal and are
one value here), an infinity, or NaN. -/
inductive F64 where
  | nan : F64
  | negInf : F64
  | fin (q : ℚ) : F64
  | posInf : F64
  deriving DecidableEq

/-- The comparison `x <= y` of float64: false as soon as one side is NaN. -/
def F64.le : F64 → F64 → Bool
  | .nan, _ => false
  | _, .nan => false
  | .negInf, _ => true
  | _, .posInf => true
  | .fin a, .fin b => decide (a ≤ b)
  | .fin _, .negInf => false
  | .posInf, .negInf => false
  | .posInf, .fin _ => false

/-- The comparison `x >= y` of float64. -/
def F64.ge (x y : F64) : Bool := F64.le y x

/-! ## Student -/

/-- The `Student` struct. -/
structure Student where
  ID : Int
  LastName : String
  FirstName : String
  Grades : List Int
  deriving DecidableEq

/-- `NewStudent`: a student without grades. -/
def NewStudent (id : Int) (lastName firstName : String) : Student :=
  { ID := id, LastName := lastName, FirstName := firstName, Grades := [] }

/-- The error message of `Student.AddGrade`. -/
def errInvalidGrade : String := "оценка должна быть от 2 до 5"

/-- `Student.AddGrade`: the student after the call and the returned error (`none` is `nil`). -/
def Student.AddGrade (s : Student) (grade : Int) : Student × Option String :=
  if grade < 2 ∨ grade > 5 then (s, some errInvalidGrade)
  else ({ s with Grades := s.Grades ++ [grade] }, none)

/-- The loop `sum := 0; for _, grade := range s.Grades { sum += grade }`. -/
def sumGrades (grades : List Int) : Int :=
  grades.foldl (fun sum grade => wrap64 (sum + grade)) 0

/-- `Student.AverageScore`. -/
def Student.AverageScore (s : Student) : ℚ :=
  if s.Grades.length = 0 then 0
  else fdiv (float64OfInt (sumGrades s.Grades)) (float64OfInt (s.Grades.length : Int))

/-- `Student.GetStatus`. -/
def Student.GetStatus (s : Student) : String :=
  let avg := s.AverageScore
  if avg ≥ 9 / 2 then "отличник"
  else if avg ≥ 4 then "хорошист"
  else if avg ≥ 3 then "троечник"
  else "неуспевающий"

/-! ## Journal -/

/-- The `Journal` struct.  A map value is a `*Student`; `AddStudent`, the only code that stores
one, allocates a fresh student per key, so an entry holds the student itself: no entry is nil
and no two keys share a student. -/
structure Journal where
  Students : AList (fun _ : Int => Student)
  NextID : Int
  deriving DecidableEq

/-- `NewJournal`. -/
def NewJournal : Journal := { Students := ∅, NextID := 1 }

/-- `Journal.AddStudent`: the journal after the call and the returned id. -/
def Journal.AddStudent (j : Journal) (lastName firstName : String) : Journal × Int :=
  let id := j.NextID
  ({ Students := j.Students.insert id (NewStudent id lastName firstName),
     NextID := wrap64 (j.NextID + 1) }, id)

/-- `Journal.FindStudentByID`: `some student` when the key exists, `none` otherwise. -/
def Journal.FindStudentByID (j : Journal) (id : Int) : Option Student :=
  j.Students.lookup id

/-- The error message of `Journal.AddGradeToStudent` for an unknown id. -/
def errStudentNotFound (studentID : Int) : String :=
  "студент с ID " ++ toString studentID ++ " не найден"

/-- `Journal.AddGradeToStudent`: the journal after the call and the returned error. -/
def Journal.AddGradeToStudent (j : Journal) (studentID grade : Int) : Journal × Option String :=
  match j.FindStudentByID studentID with
  | none => (j, some (errStudentNotFound studentID))
  | some student =>
    let r := student.AddGrade grade
    ({ j with Students := j.Students.replace studentID r.1 }, r.2)

/-- The deletion branch of `main` (menu choice 6), after the id has been parsed:
the journal afterwards and whether a student was removed. -/
def Journal.deleteStudent (j : Journal) (studentID : Int) : Journal × Bool :=
  match j.FindStudentByID studentID with
  | some _ => ({ j with Students := j.Students.erase studentID }, true)
  | none => (j, false)

/-- The students in the order in which `for _, student := range j.Students` visits them. -/
def Journal.rangeStudents (j : Journal) : List Student :=
  j.Students.entries.map (fun e => e.2)

/-- The standard library's `sort.Slice` on a slice of students, with its documented contract:
the result is a rearrangement of the input and, for a `less` that is a strict weak ordering,
no element is `less` than one placed before it.  Nothing is promised about equal elements. -/
structure SliceSorter where
  sort : (Student → Student → Bool) → List Student → List Student
  perm : ∀ less l, (sort less l).Perm l
  sorted : ∀ less l, (∀ a b, less a b = true → less b a = false) →
    (∀ a b c, less a b = false → less b c = false → less a c = false) →
    (sort less l).Pairwise (fun a b => less b a = false)

/-- An executable `sort.Slice`: insertion sort. -/
def insertionSorter : SliceSorter where
  sort less l := l.insertionSort (fun a b => less b a = false)
  perm less l := List.perm_insertionSort _ l
  sorted less l hasymm htrans := by
    have hT : IsTotal Student (fun a b => less b a = false) :=
      ⟨fun a b => by
        cases h : less b a
        · exact Or.inl rfl
        · exact Or.inr (hasymm b a h)⟩
    have hR : IsTrans Student (fun a b => less b a = false) :=
      ⟨fun a b c hab hbc => htrans c b a hbc hab⟩
    exact List.sorted_insertionSort _ l

/-- `Journal.FilterByAverageScore`. -/
def Journal.FilterByAverageScore (S : SliceSorter) (j : Journal) (minScore maxScore : F64) :
    List Student :=
  let result := j.rangeStudents.filter (fun student =>
    let avg := F64.fin student.AverageScore
    F64.ge avg minScore && F64.le avg maxScore)
  S.sort (fun a b => decide (a.AverageScore > b.AverageScore)) result

/-- The float64 value of the constant `3.99`. -/
def const399 : ℚ := roundF64 (399 / 100)

/-- Filter preset 1 of `main`, announced as "Студенты со средним баллом ниже 4.0". -/
def Journal.filterBelowFour (S : SliceSorter) (j : Journal) : List Student :=
  j.FilterByAverageScore S (F64.fin 0) (F64.fin const399)

/-- Filter preset 2 of `main`, announced as "Студенты со средним баллом 4.0 и выше". -/
def Journal.filterFourAndAbove (S : SliceSorter) (j : Journal) : List Student :=
  j.FilterByAverageScore S (F64.fin 4) (F64.fin 5)

/-- The values `Journal.GetGroupStatistics` computes before printing them. -/
structure GroupStatistics where
  totalStudents : Int
  totalAverage : ℚ
  statusCount : AList (fun _ : String => Int)

/-- One round of the loop of `GetGroupStatistics`:
`sumAllAverages += avg; statusCount[status]++`. -/
def statisticsStep (acc : ℚ × AList (fun _ : String => Int)) (student : Student) :
    ℚ × AList (fun _ : String => Int) :=
  let avg := student.AverageScore
  let status := student.GetStatus
  (fadd acc.1 avg, acc.2.insert status (((acc.2.lookup status).getD 0) + 1))

/-- `Journal.GetGroupStatistics`: `none` for an empty journal (only a message is printed),
otherwise the computed values.  A map has fewer than 2^63 entries, so `len` and the tier
counters stay within `int`. -/
def Journal.GetGroupStatistics (j : Journal) : Option GroupStatistics :=
  if j.Students.entries.length = 0 then none
  else
    let totalStudents : Int := j.Students.entries.length
    let acc := j.rangeStudents.foldl statisticsStep (0, ∅)
    some { totalStudents := totalStudents
           totalAverage := fdiv acc.1 (float64OfInt totalStudents)
           statusCount := acc.2 }

/-- The count printed for a status; a status missing from the map has none, read as 0. -/
def GroupStatistics.count (st : GroupStatistics) (status : String) : Int :=
  (st.statusCount.lookup status).getD 0

/-- The percentage printed next to the count of a status:
`float64(count) / float64(totalStudents) * 100`. -/
def GroupStatistics.percentage (st : GroupStatistics) (status : String) : ℚ :=
  fmul (fdiv (float64OfInt (st.count status)) (float64OfInt st.totalStudents)) 100

/-! ## Sequences of operations -/

/-- The three mutating menu actions. -/
inductive Op where
  | addStudent (lastName firstName : String) : Op
  | addGrade (studentID grade : Int) : Op
  | delete (studentID : Int) : Op

/-- One action: the journal afterwards and the id `AddStudent` returned, if it was called. -/
def Journal.step (j : Journal) : Op → Journal × Option Int
  | .addStudent lastName firstName =>
    let r := j.AddStudent lastName firstName
    (r.1, some r.2)
  | .addGrade studentID grade => ((j.AddGradeToStudent studentID grade).1, none)
  | .delete studentID => ((j.deleteStudent studentID).1, none)

/-- A sequence of actions: the final journal and the ids returned by `AddStudent`, in call
order. -/
def Journal.run : Journal → List Op → Journal × List Int
  | j, [] => (j, [])
  | j, op :: ops =>
    let r := j.step op
    let rest := Journal.run r.1 ops
    (rest.1, (match r.2 with | some id => [id] | none => []) ++ rest.2)

/-- Number of `AddStudent` calls in a sequence of actions. -/
def countAdds : List Op → Nat
  | [] => 0
  | .addStudent _ _ :: ops => countAdds ops + 1
  | _ :: ops => countAdds ops

/-- The setup at the start of `main`: three students and their grades. -/
def demoJournal : Journal :=
  (NewJournal.run
    [.addStudent "Иванов" "Иван", .addStudent "Петров" "Петр", .addStudent "Сидорова" "Мария",
     .addGrade 1 5, .addGrade 1 4, .addGrade 2 3, .addGrade 2 4, .addGrade 3 5, .addGrade 3 5]).1

/-! ## Well-formed journals and sample inputs -/

/-- The well-formedness predicate of the journal: every key maps to a student whose `ID` is the
key, `NextID` is greater than every key, and every grade lies within [2,5]. -/
def Journal.WF (j : Journal) : Prop :=
  ∀ e ∈ j.Students.entries,
    e.2.ID = e.1 ∧ e.1 < j.NextID ∧ ∀ g ∈ e.2.Grades, 2 ≤ g ∧ g ≤ 5

instance Journal.decidableWF (j : Journal) : Decidable j.WF := by
  unfold Journal.WF
  infer_instance

/-- Adding a student and deleting it again, `n` times over; the journal never holds more than
one student. -/
def churn : Nat → List Op
  | 0 => []
  | n + 1 => churn n ++ [.addStudent "Иванов" "Иван", .delete (wrap64 (n + 1))]

/-- An empty journal whose counter has reached the largest `int`. -/
def journalAtMaxID : Journal := { Students := ∅, NextID := 2 ^ 63 - 1 }

/-- A student with the given grade sequence. -/
def studentWithGrades (grades : List Int) : Student :=
  { ID := 1, LastName := "Иванов", FirstName := "Иван", Grades := grades }

/-- One student, graded 4 a hundred times and 3 once. -/
def nearFourOps : List Op :=
  [.addStudent "Иванов" "Иван"] ++ List.replicate 100 (.addGrade 1 4) ++ [.addGrade 1 3]

/-- The student `nearFourOps` builds. -/
def nearFourStudent : Student :=
  { ID := 1, LastName := "Иванов", FirstName := "Иван", Grades := List.replicate 100 4 ++ [3] }

/-- The journal `nearFourOps` leads to from `NewJournal`. -/
def nearFourJournal : Journal := (NewJournal.run nearFourOps).1

/-- Four students whose averages are 4.5, 3.0, 5.0 and 4.0. -/
def fourStudentsJournal : Journal :=
  (NewJournal.run
    [.addStudent "Иванов" "Иван", .addStudent "Петров" "Петр", .addStudent "Сидорова" "Мария",
     .addStudent "Кузнецов" "Олег",
     .addGrade 1 5, .addGrade 1 4, .addGrade 2 3, .addGrade 3 5, .addGrade 4 4]).1

/-- Three students with the averages 3.6, 3.8 and 2.125, as `AddStudent` and `AddGradeToStudent`
build them; the map is visited in the order 3, 2, 1. -/
def orderJournal1 : Journal :=
  { Students := List.toAList
      [⟨3, Student.mk 3 "Сидорова" "Мария" [3, 2, 2, 2, 2, 2, 2, 2]⟩,
       ⟨2, Student.mk 2 "Петров" "Петр" [4, 4, 4, 4, 3]⟩,
       ⟨1, Student.mk 1 "Иванов" "Иван" [4, 4, 4, 3, 3]⟩]
    NextID := 4 }

/-- The map of `orderJournal1`, visited in the order 3, 1, 2. -/
def orderJournal2 : Journal :=
  { Students := List.toAList
      [⟨3, Student.mk 3 "Сидорова" "Мария" [3, 2, 2, 2, 2, 2, 2, 2]⟩,
       ⟨1, Student.mk 1 "Иванов" "Иван" [4, 4, 4, 3, 3]⟩,
       ⟨2, Student.mk 2 "Петров" "Петр" [4, 4, 4, 4, 3]⟩]
    NextID := 4 }

/-! ## float64 rounding and machine sums -/

theorem roundNearestEven_of_abs_lt {x : ℚ} {m : Int} (h : |x - m| < 1 / 2) :
    roundNearestEven x = m := by
  have h1 := Int.floor_le x
  have h2 := Int.lt_floor_add_one x
  rw [abs_lt] at h
  obtain ⟨h3, h4⟩ := h
  unfold roundNearestEven
  simp only
  split_ifs with c1 c2 c3
  · have a1 : (⌊x⌋ : ℚ) < (m : ℚ) + 1 := by linarith
    have a2 : (m : ℚ) - 1 < (⌊x⌋ : ℚ) := by linarith
    have b1 : ⌊x⌋ < m + 1 := by exact_mod_cast a1
    have b2 : m - 1 < ⌊x⌋ := by exact_mod_cast a2
    omega
  · have a1 : (⌊x⌋ : ℚ) < (m : ℚ) := by linarith
    have a2 : (m : ℚ) - 2 < (⌊x⌋ : ℚ) := by linarith
    have b1 : ⌊x⌋ < m := by exact_mod_cast a1
    have b2 : m - 2 < ⌊x⌋ := by exact_mod_cast a2
    omega
  · exfalso
    have e : x - ⌊x⌋ = 1 / 2 := le_antisymm (not_lt.mp c2) (not_lt.mp c1)
    have a1 : (⌊x⌋ : ℚ) < (m : ℚ) := by linarith
    have a2 : (m : ℚ) - 1 < (⌊x⌋ : ℚ) := by linarith
    have b1 : ⌊x⌋ < m := by exact_mod_cast a1
    have b2 : m - 1 < ⌊x⌋ := by exact_mod_cast a2
    omega
  · exfalso
    have e : x - ⌊x⌋ = 1 / 2 := le_antisymm (not_lt.mp c2) (not_lt.mp c1)
    have a1 : (⌊x⌋ : ℚ) < (m : ℚ) := by linarith
    have a2 : (m : ℚ) - 1 < (⌊x⌋ : ℚ) := by linarith
    have b1 : ⌊x⌋ < m := by exact_mod_cast a1
    have b2 : m - 1 < ⌊x⌋ := by exact_mod_cast a2
    omega

theorem roundNearestEven_intCast (m : Int) : roundNearestEven (m : ℚ) = m :=
  roundNearestEven_of_abs_lt (by simp)

theorem abs_roundNearestEven_sub_le (x : ℚ) : |(roundNearestEven x : ℚ) - x| ≤ 1 / 2 := by
  have h1 := Int.floor_le x
  have h2 := Int.lt_floor_add_one x
  unfold roundNearestEven
  simp only
  rw [abs_le]
  split_ifs with c1 c2 c3
  · constructor <;> linarith
  · push_cast; constructor <;> linarith
  · constructor <;> linarith
  · push_cast; constructor <;> linarith

theorem intLog_two_eq {q : ℚ} {e : Int} (h1 : (2 : ℚ) ^ e ≤ q) (h2 : q < (2 : ℚ) ^ (e + 1)) :
    Int.log 2 q = e := by
  have hq : 0 < q := lt_of_lt_of_le (by positivity) h1
  have a1 : e ≤ Int.log 2 q := by
    rw [← Int.zpow_le_iff_le_log (by norm_num) hq]
    simpa using h1
  have a2 : Int.log 2 q < e + 1 := by
    rw [← Int.lt_zpow_iff_log_lt (by norm_num) hq]
    simpa using h2
  omega

theorem ulpExp_eq {q : ℚ} {e : Int} (he : -1022 ≤ e) (h1 : (2 : ℚ) ^ e ≤ |q|)
    (h2 : |q| < (2 : ℚ) ^ (e + 1)) : ulpExp q = e - 52 := by
  unfold ulpExp
  rw [intLog_two_eq h1 h2, max_eq_left he]

/-- Evaluation of `roundF64` in a given binade: an integer within half a unit of the scaled
value is the rounded significand. -/
theorem roundF64_eq {q : ℚ} (e m : Int) (he : -1022 ≤ e) (h1 : (2 : ℚ) ^ e ≤ |q|)
    (h2 : |q| < (2 : ℚ) ^ (e + 1)) (hm : |q / (2 : ℚ) ^ (e - 52) - m| < 1 / 2) :
    roundF64 q = (m : ℚ) * (2 : ℚ) ^ (e - 52) := by
  unfold roundF64
  rw [ulpExp_eq he h1 h2, roundNearestEven_of_abs_lt hm]

theorem roundF64_zero : roundF64 0 = 0 := by
  unfold roundF64
  have h : roundNearestEven ((0 : ℚ) / (2 : ℚ) ^ ulpExp 0) = 0 := by
    rw [zero_div]
    exact_mod_cast roundNearestEven_intCast 0
  rw [h]
  simp

/-- A value `m * 2^k` with a significand below 2^53 and an exponent a float64 offers is a
float64: rounding leaves it as it is. -/
theorem roundF64_exact (m k : Int) (hm : |m| < 2 ^ 53) (hk : -1074 ≤ k) :
    roundF64 ((m : ℚ) * (2 : ℚ) ^ k) = (m : ℚ) * (2 : ℚ) ^ k := by
  by_cases h0 : m = 0
  · subst h0
    simp [roundF64_zero]
  have hq : (0 : ℚ) < |(m : ℚ) * (2 : ℚ) ^ k| := by
    rw [abs_pos]
    have : (m : ℚ) ≠ 0 := by exact_mod_cast h0
    positivity
  have hu : ulpExp ((m : ℚ) * (2 : ℚ) ^ k) ≤ k := by
    unfold ulpExp
    have hlog : Int.log 2 |(m : ℚ) * (2 : ℚ) ^ k| < 53 + k := by
      rw [← Int.lt_zpow_iff_log_lt (by norm_num) hq]
      rw [abs_mul, abs_of_pos (show (0 : ℚ) < (2 : ℚ) ^ k by positivity), zpow_add₀ (by norm_num)]
      have hm' : |(m : ℚ)| < 2 ^ 53 := by exact_mod_cast hm
      have hp : (0 : ℚ) < (2 : ℚ) ^ k := by positivity
      push_cast
      have : ((2 : ℚ) ^ (53 : ℤ)) = 2 ^ 53 := by norm_num
      rw [this]
      exact mul_lt_mul_of_pos_right hm' hp
    omega
  unfold roundF64
  generalize ulpExp ((m : ℚ) * (2 : ℚ) ^ k) = u at hu
  obtain ⟨d, rfl⟩ : ∃ d : ℕ, k = u + d := ⟨(k - u).toNat, by omega⟩
  have hscale : (m : ℚ) * (2 : ℚ) ^ (u + (d : ℤ)) / (2 : ℚ) ^ u = ((m * 2 ^ d : Int) : ℚ) := by
    rw [zpow_add₀ (by norm_num), zpow_natCast]
    have hp : ((2 : ℚ) ^ u) ≠ 0 := by positivity
    field_simp
    ring
  rw [hscale, roundNearestEven_intCast, zpow_add₀ (by norm_num), zpow_natCast]
  push_cast
  ring

theorem roundF64_intCast (n : Int) (hn : |n| < 2 ^ 53) : roundF64 (n : ℚ) = n := by
  have h := roundF64_exact n 0 hn (by norm_num)
  simpa using h

/-- The result of `roundF64` lies within half a unit in the last place of its argument. -/
theorem abs_roundF64_sub_le (q : ℚ) : |roundF64 q - q| ≤ (2 : ℚ) ^ ulpExp q / 2 := by
  have hp : (0 : ℚ) < (2 : ℚ) ^ ulpExp q := by positivity
  have h := abs_roundNearestEven_sub_le (q / (2 : ℚ) ^ ulpExp q)
  have e : roundF64 q - q
      = ((roundNearestEven (q / (2 : ℚ) ^ ulpExp q) : ℚ) - q / (2 : ℚ) ^ ulpExp q)
        * (2 : ℚ) ^ ulpExp q := by
    unfold roundF64
    field_simp
  rw [e, abs_mul, abs_of_pos hp]
  calc |(roundNearestEven (q / (2 : ℚ) ^ ulpExp q) : ℚ) - q / (2 : ℚ) ^ ulpExp q|
        * (2 : ℚ) ^ ulpExp q
      ≤ 1 / 2 * (2 : ℚ) ^ ulpExp q := mul_le_mul_of_nonneg_right h hp.le
    _ = (2 : ℚ) ^ ulpExp q / 2 := by ring

/-- In the normal range the rounding error is at most 2^-53 relative to the argument. -/
theorem abs_roundF64_sub_le_rel (q : ℚ) (hq : (2 : ℚ) ^ (-1022 : ℤ) ≤ |q|) :
    |roundF64 q - q| ≤ |q| * (2 : ℚ) ^ (-53 : ℤ) := by
  have hpos : (0 : ℚ) < |q| := lt_of_lt_of_le (by positivity) hq
  have hlog : (-1022 : ℤ) ≤ Int.log 2 |q| := by
    rw [← Int.zpow_le_iff_le_log (by norm_num) hpos]
    simpa using hq
  have hle : (2 : ℚ) ^ Int.log 2 |q| ≤ |q| := by
    have := Int.zpow_log_le_self (b := 2) (r := |q|) (by norm_num) hpos
    simpa using this
  have hu : ulpExp q = Int.log 2 |q| + (-52) := by
    unfold ulpExp
    rw [max_eq_left hlog]
    ring
  have h := abs_roundF64_sub_le q
  rw [hu, zpow_add₀ (by norm_num)] at h
  calc |roundF64 q - q| ≤ (2 : ℚ) ^ Int.log 2 |q| * (2 : ℚ) ^ (-52 : ℤ) / 2 := h
    _ = (2 : ℚ) ^ Int.log 2 |q| * (2 : ℚ) ^ (-53 : ℤ) := by norm_num; ring
    _ ≤ |q| * (2 : ℚ) ^ (-53 : ℤ) := mul_le_mul_of_nonneg_right hle (by positivity)

theorem wrap64_of_range {x : Int} (h1 : -2 ^ 63 ≤ x) (h2 : x < 2 ^ 63) : wrap64 x = x := by
  unfold wrap64
  omega

theorem wrap64_wrap64_add (a b : Int) : wrap64 (wrap64 a + b) = wrap64 (a + b) := by
  unfold wrap64
  omega

theorem foldl_wrap64 (l : List Int) (a : Int) :
    l.foldl (fun sum grade => wrap64 (sum + grade)) (wrap64 a) = wrap64 (a + l.sum) := by
  induction l generalizing a with
  | nil => simp
  | cons g l ih =>
    simp only [List.foldl_cons, List.sum_cons]
    rw [wrap64_wrap64_add, ih, add_assoc]

/-- The summation loop computes the sum of the grades modulo 2^64. -/
theorem sumGrades_eq (l : List Int) : sumGrades l = wrap64 l.sum := by
  have h := foldl_wrap64 l 0
  have h0 : wrap64 0 = 0 := by norm_num [wrap64]
  rw [h0, zero_add] at h
  exact h

/-- Without overflow and below 2^53 nothing but the final division rounds. -/
theorem AverageScore_eq_roundF64 (s : Student) (hne : s.Grades ≠ [])
    (hsum : |s.Grades.sum| < 2 ^ 53) (hlen : (s.Grades.length : Int) < 2 ^ 53) :
    s.AverageScore = roundF64 ((s.Grades.sum : ℚ) / (s.Grades.length : ℚ)) := by
  unfold Student.AverageScore
  have hl : s.Grades.length ≠ 0 := by
    intro h
    exact hne (List.length_eq_zero.mp h)
  rw [if_neg hl]
  have hs : sumGrades s.Grades = s.Grades.sum := by
    rw [sumGrades_eq]
    rw [abs_lt] at hsum
    exact wrap64_of_range (by omega) (by omega)
  unfold fdiv float64OfInt
  rw [hs, roundF64_intCast _ hsum, roundF64_intCast _ (by rw [abs_lt]; constructor <;> omega)]
  rw [Int.cast_natCast]

theorem wrap64_range (x : Int) : -2 ^ 63 ≤ wrap64 x ∧ wrap64 x < 2 ^ 63 := by
  unfold wrap64
  omega

theorem abs_roundF64_le_of_lt (q : ℚ) (e : Int) (he : 0 ≤ e) (h : |q| < (2 : ℚ) ^ e) :
    |roundF64 q| ≤ (2 : ℚ) ^ (e + 1) := by
  have hu : ulpExp q ≤ e := by
    unfold ulpExp
    have hlog : Int.log 2 |q| ≤ e := by
      by_cases h0 : |q| = 0
      · rw [h0, Int.log_zero_right]
        exact he
      · have hpos : (0 : ℚ) < |q| := lt_of_le_of_ne (abs_nonneg q) (Ne.symm h0)
        have : Int.log 2 |q| < e := by
          rw [← Int.lt_zpow_iff_log_lt (by norm_num) hpos]
          simpa using h
        omega
    omega
  have herr := abs_roundF64_sub_le q
  have hpow : (2 : ℚ) ^ ulpExp q ≤ (2 : ℚ) ^ e := zpow_le_zpow_right₀ (by norm_num) hu
  have htri : |roundF64 q| ≤ |roundF64 q - q| + |q| := by
    have := abs_add (roundF64 q - q) q
    simpa using this
  have hpos : (0 : ℚ) < (2 : ℚ) ^ e := by positivity
  rw [zpow_add₀ (by norm_num), zpow_one]
  linarith

/-- The value of `AverageScore` is far below the largest float64 (about 2^1024): the division
cannot overflow to an infinity, and the result is always a finite float64. -/
theorem AverageScore_abs_le (s : Student) : |s.AverageScore| ≤ (2 : ℚ) ^ (68 : ℤ) := by
  unfold Student.AverageScore
  split_ifs with h
  · simp
    positivity
  · have hx : |float64OfInt (sumGrades s.Grades)| ≤ (2 : ℚ) ^ (65 : ℤ) := by
      have hr := wrap64_range s.Grades.sum
      apply abs_roundF64_le_of_lt _ 64 (by norm_num)
      rw [sumGrades_eq]
      have : |wrap64 s.Grades.sum| < 2 ^ 64 := by
        rw [abs_lt]
        constructor <;> omega
      have h2 : |((wrap64 s.Grades.sum : Int) : ℚ)| < ((2 ^ 64 : Int) : ℚ) := by
        rw [← Int.cast_abs]
        exact_mod_cast this
      have h3 : (2 : ℚ) ^ (64 : ℤ) = ((2 ^ 64 : Int) : ℚ) := by norm_num
      rw [h3]
      exact h2
    have hn : (1 : ℚ) ≤ ((s.Grades.length : Int) : ℚ) := by
      have : 1 ≤ s.Grades.length := Nat.pos_of_ne_zero h
      exact_mod_cast this
    have hy : (1 : ℚ) / 2 ≤ float64OfInt (s.Grades.length : Int) := by
      have hrel := abs_roundF64_sub_le_rel ((s.Grades.length : Int) : ℚ)
        (by
          rw [abs_of_pos (by linarith)]
          exact le_trans (zpow_le_one_of_nonpos₀ (by norm_num) (by norm_num)) hn)
      rw [abs_of_pos (show (0 : ℚ) < ((s.Grades.length : Int) : ℚ) by linarith)] at hrel
      have := (abs_le.mp hrel).1
      have hsmall : ((2 : ℚ) ^ (-53 : ℤ)) ≤ 1 / 2 := by
        rw [show (1 : ℚ) / 2 = (2 : ℚ) ^ (-1 : ℤ) by norm_num]
        exact zpow_le_zpow_right₀ (by norm_num) (by norm_num)
      have hmul := mul_le_mul_of_nonneg_left hsmall
        (show (0 : ℚ) ≤ ((s.Grades.length : Int) : ℚ) by linarith)
      unfold float64OfInt
      generalize (2 : ℚ) ^ (-53 : ℤ) = c at hrel this hsmall hmul
      linarith
    have hq : |float64OfInt (sumGrades s.Grades) / float64OfInt (s.Grades.length : Int)|
        < (2 : ℚ) ^ (67 : ℤ) := by
      have hypos : (0 : ℚ) < float64OfInt (s.Grades.length : Int) := by linarith
      rw [abs_div, abs_of_pos hypos, div_lt_iff₀ hypos]
      have e1 : (2 : ℚ) ^ (67 : ℤ) = 4 * (2 : ℚ) ^ (65 : ℤ) := by norm_num
      have hp : (0 : ℚ) < (2 : ℚ) ^ (65 : ℤ) := by positivity
      rw [e1]
      nlinarith
    exact abs_roundF64_le_of_lt _ 67 (by norm_num) hq

/-! ## Map lemmas -/

theorem dlookup_kreplace_ne (l : List (Σ _ : Int, Student)) (k k' : Int) (v : Student)
    (h : k' ≠ k) : List.dlookup k' (List.kreplace k v l) = List.dlookup k' l := by
  induction l with
  | nil => rfl
  | cons e l ih =>
    obtain ⟨a, b⟩ := e
    by_cases hk : k = a
    · subst hk
      have e1 : List.kreplace k v (⟨k, b⟩ :: l) = ⟨k, v⟩ :: l := by
        simp [List.kreplace, List.lookmap_cons_some]
      rw [e1, List.dlookup_cons_ne l (⟨k, v⟩ : Σ _ : Int, Student) h,
        List.dlookup_cons_ne l (⟨k, b⟩ : Σ _ : Int, Student) h]
    · have e1 : List.kreplace k v (⟨a, b⟩ :: l) = ⟨a, b⟩ :: List.kreplace k v l := by
        simp [List.kreplace, List.lookmap_cons_none, hk]
      rw [e1]
      by_cases ha : k' = a
      · subst ha
        simp
      · rw [List.dlookup_cons_ne _ (⟨a, b⟩ : Σ _ : Int, Student) ha,
          List.dlookup_cons_ne _ (⟨a, b⟩ : Σ _ : Int, Student) ha, ih]

theorem dlookup_kreplace_self (l : List (Σ _ : Int, Student)) (k : Int) (v : Student)
    (h : k ∈ l.keys) : List.dlookup k (List.kreplace k v l) = some v := by
  induction l with
  | nil => simp at h
  | cons e l ih =>
    obtain ⟨a, b⟩ := e
    by_cases hk : k = a
    · subst hk
      simp [List.kreplace, List.lookmap_cons_some]
    · have e1 : List.kreplace k v (⟨a, b⟩ :: l) = ⟨a, b⟩ :: List.kreplace k v l := by
        simp [List.kreplace, List.lookmap_cons_none, hk]
      rw [e1, List.dlookup_cons_ne _ (⟨a, b⟩ : Σ _ : Int, Student) hk]
      apply ih
      simpa [List.keys, hk] using h

theorem lookup_replace_ne (m : AList (fun _ : Int => Student)) (k k' : Int) (v : Student)
    (h : k' ≠ k) : (m.replace k v).lookup k' = m.lookup k' :=
  dlookup_kreplace_ne m.entries k k' v h

theorem lookup_replace_self (m : AList (fun _ : Int => Student)) (k : Int) (v : Student)
    (h : k ∈ m) : (m.replace k v).lookup k = some v :=
  dlookup_kreplace_self m.entries k v h


/-! ## Journal lemmas -/

theorem WF_iff_lookup (j : Journal) :
    j.WF ↔ ∀ k s, j.Students.lookup k = some s →
      s.ID = k ∧ k < j.NextID ∧ ∀ g ∈ s.Grades, 2 ≤ g ∧ g ≤ 5 := by
  unfold Journal.WF
  constructor
  · intro h k s hs
    exact h ⟨k, s⟩ (AList.mem_lookup_iff.mp hs)
  · intro h e he
    obtain ⟨k, s⟩ := e
    exact h k s (AList.mem_lookup_iff.mpr he)

theorem WF_AddStudent (j : Journal) (lastName firstName : String) (hwf : j.WF)
    (hmax : j.NextID < 2 ^ 63 - 1) : (j.AddStudent lastName firstName).1.WF := by
  rw [WF_iff_lookup] at hwf ⊢
  intro k s hs
  have hnext : j.NextID < wrap64 (j.NextID + 1) := by
    unfold wrap64
    omega
  by_cases hk : k = j.NextID
  · subst hk
    simp only [Journal.AddStudent, AList.lookup_insert, Option.some.injEq] at hs
    subst hs
    exact ⟨rfl, hnext, by simp [NewStudent]⟩
  · simp only [Journal.AddStudent, AList.lookup_insert_ne hk] at hs
    obtain ⟨h1, h2, h3⟩ := hwf k s hs
    exact ⟨h1, lt_trans h2 hnext, h3⟩

theorem WF_AddGradeToStudent (j : Journal) (studentID grade : Int) (hwf : j.WF) :
    (j.AddGradeToStudent studentID grade).1.WF := by
  unfold Journal.AddGradeToStudent Journal.FindStudentByID
  cases hl : j.Students.lookup studentID with
  | none => exact hwf
  | some student =>
    rw [WF_iff_lookup] at hwf ⊢
    intro k s hs
    have hmem : studentID ∈ j.Students := AList.lookup_isSome.mp (by rw [hl]; rfl)
    by_cases hk : k = studentID
    · subst hk
      simp only [lookup_replace_self _ _ _ hmem, Option.some.injEq] at hs
      subst hs
      obtain ⟨h1, h2, h3⟩ := hwf k student hl
      unfold Student.AddGrade
      by_cases hg : grade < 2 ∨ grade > 5
      · rw [if_pos hg]
        exact ⟨h1, h2, h3⟩
      · rw [if_neg hg]
        refine ⟨h1, h2, ?_⟩
        intro g hgm
        rcases List.mem_append.mp hgm with hgm | hgm
        · exact h3 g hgm
        · rw [List.mem_singleton] at hgm
          subst hgm
          constructor <;> omega
    · simp only [lookup_replace_ne _ _ _ _ hk] at hs
      exact hwf k s hs

theorem WF_deleteStudent (j : Journal) (studentID : Int) (hwf : j.WF) :
    (j.deleteStudent studentID).1.WF := by
  unfold Journal.deleteStudent Journal.FindStudentByID
  cases hl : j.Students.lookup studentID with
  | none => exact hwf
  | some student =>
    rw [WF_iff_lookup] at hwf ⊢
    intro k s hs
    by_cases hk : k = studentID
    · subst hk
      simp [AList.lookup_erase] at hs
    · simp only [AList.lookup_erase_ne hk] at hs
      exact hwf k s hs

theorem NextID_AddGradeToStudent (j : Journal) (studentID grade : Int) :
    (j.AddGradeToStudent studentID grade).1.NextID = j.NextID := by
  unfold Journal.AddGradeToStudent
  cases j.FindStudentByID studentID <;> rfl

theorem NextID_deleteStudent (j : Journal) (studentID : Int) :
    (j.deleteStudent studentID).1.NextID = j.NextID := by
  unfold Journal.deleteStudent
  cases j.FindStudentByID studentID <;> rfl

theorem WF_run (ops : List Op) (j : Journal) (hwf : j.WF) (hlo : -2 ^ 63 ≤ j.NextID)
    (hhi : j.NextID + countAdds ops < 2 ^ 63) : (j.run ops).1.WF := by
  induction ops generalizing j with
  | nil => exact hwf
  | cons op ops ih =>
    cases op with
    | addStudent lastName firstName =>
      simp only [countAdds, Nat.cast_add, Nat.cast_one] at hhi
      have hn : (j.AddStudent lastName firstName).1.NextID = j.NextID + 1 := by
        simp only [Journal.AddStudent]
        exact wrap64_of_range (by omega) (by omega)
      exact ih (j.AddStudent lastName firstName).1
        (WF_AddStudent j lastName firstName hwf (by omega)) (by rw [hn]; omega)
        (by rw [hn]; omega)
    | addGrade studentID grade =>
      simp only [countAdds] at hhi
      exact ih (j.AddGradeToStudent studentID grade).1 (WF_AddGradeToStudent j studentID grade hwf)
        (by rw [NextID_AddGradeToStudent]; exact hlo) (by rw [NextID_AddGradeToStudent]; exact hhi)
    | delete studentID =>
      simp only [countAdds] at hhi
      exact ih (j.deleteStudent studentID).1 (WF_deleteStudent j studentID hwf)
        (by rw [NextID_deleteStudent]; exact hlo) (by rw [NextID_deleteStudent]; exact hhi)

/-- The ids `AddStudent` returns along any sequence of actions are the successive values of the
wrapping counter; grades and deletions do not touch it. -/
theorem run_ids (ops : List Op) (j : Journal) (n : Int) (hn : j.NextID = wrap64 n) :
    (j.run ops).2 = (List.range (countAdds ops)).map (fun (i : Nat) => wrap64 (n + (i : Int))) := by
  induction ops generalizing j n with
  | nil => rfl
  | cons op ops ih =>
    cases op with
    | addStudent lastName firstName =>
      have hn' : (j.AddStudent lastName firstName).1.NextID = wrap64 (n + 1) := by
        simp only [Journal.AddStudent]
        rw [hn, wrap64_wrap64_add]
      have h := ih (j.AddStudent lastName firstName).1 (n + 1) hn'
      simp only [Journal.run, Journal.step, countAdds]
      rw [h, List.range_succ_eq_map]
      simp only [List.map_cons, List.map_map, List.singleton_append, Journal.AddStudent]
      congr 1
      · rw [hn]; simp
      · apply List.map_congr_left
        intro i _
        simp only [Function.comp, Nat.cast_succ]
        congr 1
        ring
    | addGrade studentID grade =>
      have h := ih (j.AddGradeToStudent studentID grade).1 n
        (by rw [NextID_AddGradeToStudent]; exact hn)
      simp only [Journal.run, Journal.step, countAdds]
      rw [h]
      rfl
    | delete studentID =>
      have h := ih (j.deleteStudent studentID).1 n (by rw [NextID_deleteStudent]; exact hn)
      simp only [Journal.run, Journal.step, countAdds]
      rw [h]
      rfl

theorem countAdds_append (l₁ l₂ : List Op) : countAdds (l₁ ++ l₂) = countAdds l₁ + countAdds l₂ := by
  induction l₁ with
  | nil => simp [countAdds]
  | cons op l ih =>
    cases op <;> simp [countAdds, ih]
    omega

theorem countAdds_churn (n : Nat) : countAdds (churn n) = n := by
  induction n with
  | zero => rfl
  | succ n ih => simp [churn, countAdds_append, ih, countAdds]

/-! ## Sample inputs -/

set_option maxRecDepth 1000000 in
theorem nearFourJournal_students :
    nearFourJournal.rangeStudents
      = [nearFourStudent] := by
  decide

theorem const399_eq : const399 = 2246170314151035 / 562949953421312 := by
  unfold const399
  rw [roundF64_eq 1 8984681256604140 (by norm_num) (by norm_num [abs_of_pos])
    (by norm_num [abs_of_pos]) (by norm_num [abs_lt])]
  norm_num

theorem nearFour_average :
    nearFourStudent.AverageScore = 4492452103540371 / 1125899906842624 := by
  rw [AverageScore_eq_roundF64 _ (by simp [nearFourStudent]) (by simp [nearFourStudent])
    (by simp [nearFourStudent])]
  unfold nearFourStudent
  simp only [List.sum_append, List.sum_replicate, List.length_append, List.length_replicate,
    List.sum_cons, List.sum_nil, List.length_cons, List.length_nil]
  norm_num
  rw [roundF64_eq 1 8984904207080742 (by norm_num) (by norm_num [abs_of_pos])
    (by norm_num [abs_of_pos]) (by norm_num [abs_lt])]
  norm_num

/-! ## Statistics lemmas -/

theorem foldl_statisticsStep_fst (l : List Student) (acc : ℚ × AList (fun _ : String => Int)) :
    (l.foldl statisticsStep acc).1 = (l.map Student.AverageScore).foldl fadd acc.1 := by
  induction l generalizing acc with
  | nil => rfl
  | cons s l ih =>
    simp only [List.foldl_cons, List.map_cons]
    rw [ih]
    rfl

theorem foldl_statisticsStep_count (l : List Student) (acc : ℚ × AList (fun _ : String => Int))
    (status : String) :
    ((l.foldl statisticsStep acc).2.lookup status).getD 0
      = (acc.2.lookup status).getD 0 + (l.countP (fun s => decide (s.GetStatus = status)) : Int) := by
  induction l generalizing acc with
  | nil => simp
  | cons s l ih =>
    simp only [List.foldl_cons]
    rw [ih, List.countP_cons]
    by_cases h : s.GetStatus = status
    · subst h
      simp only [statisticsStep, AList.lookup_insert, Option.getD_some, decide_True, if_true]
      push_cast
      ring
    · have h' : status ≠ s.GetStatus := fun e => h e.symm
      simp only [statisticsStep, AList.lookup_insert_ne h', decide_eq_true_eq, h, if_false]
      push_cast
      ring

theorem GetStatus_cases (s : Student) :
    s.GetStatus = "отличник" ∨ s.GetStatus = "хорошист" ∨ s.GetStatus = "троечник" ∨
      s.GetStatus = "неуспевающий" := by
  unfold Student.GetStatus
  simp only
  split_ifs <;> simp

theorem countP_tiers (l : List Student) :
    l.countP (fun s => decide (s.GetStatus = "отличник"))
      + l.countP (fun s => decide (s.GetStatus = "хорошист"))
      + l.countP (fun s => decide (s.GetStatus = "троечник"))
      + l.countP (fun s => decide (s.GetStatus = "неуспевающий")) = l.length := by
  induction l with
  | nil => rfl
  | cons s l ih =>
    simp only [List.countP_cons, List.length_cons]
    rcases GetStatus_cases s with h | h | h | h <;> rw [h] <;> simp <;> omega

theorem roundF64_half (n : Int) (hn : |n| < 2 ^ 53) : roundF64 ((n : ℚ) / 2) = (n : ℚ) / 2 := by
  have h := roundF64_exact n (-1) hn (by decide)
  have e : (n : ℚ) * (2 : ℚ) ^ (-1 : ℤ) = (n : ℚ) / 2 := by
    rw [zpow_neg_one]
    ring
  rw [e] at h
  exact h

theorem roundF64_13_3 : roundF64 (13 / 3) = 4878899596318037 / 1125899906842624 := by
  rw [roundF64_eq 2 4878899596318037 (by norm_num) (by norm_num [abs_of_pos])
    (by norm_num [abs_of_pos]) (by norm_num [abs_lt])]
  norm_num

/-- The float64 running sum of the averages 4.5, 3.5 and 5.0 is 13 in whatever order the map is
visited: every partial sum is a float64. -/
theorem foldl_fadd_demo (l : List ℚ) (h : l.Perm [9 / 2, 7 / 2, 5]) : l.foldl fadd 0 = 13 := by
  rw [← List.mem_permutations] at h
  simp [List.permutations, List.permutationsAux, List.permutationsAux.rec] at h
  have r1 : roundF64 (9 / 2) = 9 / 2 := by simpa using roundF64_half 9 (by decide)
  have r2 : roundF64 (7 / 2) = 7 / 2 := by simpa using roundF64_half 7 (by decide)
  have r3 : roundF64 5 = 5 := by simpa using roundF64_intCast 5 (by decide)
  have r4 : roundF64 8 = 8 := by simpa using roundF64_intCast 8 (by decide)
  have r5 : roundF64 (19 / 2) = 19 / 2 := by simpa using roundF64_half 19 (by decide)
  have r6 : roundF64 (17 / 2) = 17 / 2 := by simpa using roundF64_half 17 (by decide)
  have r7 : roundF64 13 = 13 := by simpa using roundF64_intCast 13 (by decide)
  rcases h with h | h | h | h | h | h <;> subst h <;>
    norm_num [List.foldl, fadd, r1, r2, r3, r4, r5, r6, r7]

theorem AverageScore_of_half (s : Student) (n : Int) (hne : s.Grades ≠ [])
    (hsum : |s.Grades.sum| < 2 ^ 53) (hlen : (s.Grades.length : Int) < 2 ^ 53)
    (hn : |n| < 2 ^ 53) (h : (s.Grades.sum : ℚ) / (s.Grades.length : ℚ) = (n : ℚ) / 2) :
    s.AverageScore = (n : ℚ) / 2 := by
  rw [AverageScore_eq_roundF64 s hne hsum hlen, h]
  exact roundF64_half n hn

theorem AverageScore_5_4 (id : Int) (l f : String) :
    (Student.mk id l f [5, 4]).AverageScore = 9 / 2 := by
  have h := AverageScore_of_half (Student.mk id l f [5, 4]) 9 (by simp) (by norm_num) (by norm_num)
    (by decide) (by norm_num)
  simpa using h

theorem AverageScore_3_4 (id : Int) (l f : String) :
    (Student.mk id l f [3, 4]).AverageScore = 7 / 2 := by
  have h := AverageScore_of_half (Student.mk id l f [3, 4]) 7 (by simp) (by norm_num) (by norm_num)
    (by decide) (by norm_num)
  simpa using h

theorem AverageScore_5_5 (id : Int) (l f : String) :
    (Student.mk id l f [5, 5]).AverageScore = 5 := by
  have h := AverageScore_of_half (Student.mk id l f [5, 5]) 10 (by simp) (by norm_num) (by norm_num)
    (by decide) (by norm_num)
  norm_num at h
  exact h

theorem AverageScore_single (id : Int) (l f : String) (g : Int) (hg : |g| < 2 ^ 52) :
    (Student.mk id l f [g]).AverageScore = g := by
  have h := AverageScore_of_half (Student.mk id l f [g]) (2 * g) (by simp)
    (by simp only [List.sum_cons, List.sum_nil, add_zero]; omega) (by norm_num)
    (by rw [abs_mul]; norm_num; omega) (by simp)
  rw [h]
  push_cast
  ring

set_option maxRecDepth 100000 in
theorem demoJournal_students :
    demoJournal.rangeStudents
      = [Student.mk 3 "Сидорова" "Мария" [5, 5], Student.mk 2 "Петров" "Петр" [3, 4],
         Student.mk 1 "Иванов" "Иван" [5, 4]] := by
  decide

theorem demoJournal_averages :
    demoJournal.rangeStudents.map Student.AverageScore = [5, 7 / 2, 9 / 2] := by
  rw [demoJournal_students]
  simp only [List.map_cons, List.map_nil, AverageScore_5_5, AverageScore_3_4, AverageScore_5_4]

set_option maxRecDepth 100000 in
theorem fourStudentsJournal_students :
    fourStudentsJournal.rangeStudents
      = [Student.mk 4 "Кузнецов" "Олег" [4], Student.mk 3 "Сидорова" "Мария" [5],
         Student.mk 2 "Петров" "Петр" [3], Student.mk 1 "Иванов" "Иван" [5, 4]] := by
  decide

theorem fourStudentsJournal_averages :
    fourStudentsJournal.rangeStudents.map Student.AverageScore = [4, 5, 3, 9 / 2] := by
  rw [fourStudentsJournal_students]
  simp only [List.map_cons, List.map_nil, AverageScore_5_4]
  rw [AverageScore_single _ _ _ 4 (by decide), AverageScore_single _ _ _ 5 (by decide),
    AverageScore_single _ _ _ 3 (by decide)]
  norm_num

/-- The comparison `sort.Slice` is called with in `FilterByAverageScore` is a strict weak
ordering, and "not less" is "average at least as high". -/
theorem sort_by_average (S : SliceSorter) (l : List Student) :
    (S.sort (fun a b => decide (a.AverageScore > b.AverageScore)) l).Pairwise
      (fun a b => a.AverageScore ≥ b.AverageScore) := by
  have h := S.sorted (fun a b => decide (a.AverageScore > b.AverageScore)) l
    (by
      intro a b hab
      simp only [decide_eq_true_eq, decide_eq_false_iff_not, not_lt] at hab ⊢
      exact le_of_lt hab)
    (by
      intro a b c hab hbc
      simp only [decide_eq_false_iff_not, not_lt] at hab hbc ⊢
      exact le_trans hab hbc)
  refine h.imp ?_
  intro a b hab
  simpa using hab

/-! ## Accuracy of the float64 mean -/

theorem roundNearestEven_half (f : Int) :
    roundNearestEven ((f : ℚ) + 1 / 2) = if f % 2 = 0 then f else f + 1 := by
  have hfl : ⌊(f : ℚ) + 1 / 2⌋ = f := by
    rw [Int.floor_eq_iff]
    constructor <;> linarith
  unfold roundNearestEven
  simp only [hfl]
  have e : (f : ℚ) + 1 / 2 - (f : ℚ) = 1 / 2 := by ring
  rw [e, if_neg (lt_irrefl _), if_neg (lt_irrefl _)]

/-- Evaluation of `roundF64` at a tie: the scaled value lies half-way between two integers. -/
theorem roundF64_eq_tie {q : ℚ} (e f : Int) (he : -1022 ≤ e) (h1 : (2 : ℚ) ^ e ≤ |q|)
    (h2 : |q| < (2 : ℚ) ^ (e + 1)) (hm : q / (2 : ℚ) ^ (e - 52) = (f : ℚ) + 1 / 2) :
    roundF64 q = ((if f % 2 = 0 then f else f + 1 : Int) : ℚ) * (2 : ℚ) ^ (e - 52) := by
  unfold roundF64
  rw [ulpExp_eq he h1 h2, hm, roundNearestEven_half]

/-- Every rounding errs by at most 2^-53 relative to its argument, or by 2^-1075 below the
normal range. -/
theorem abs_roundF64_sub_le_gen (q : ℚ) :
    |roundF64 q - q| ≤ |q| * unitRoundoff + halfSubnormal := by
  have hη : (0 : ℚ) ≤ halfSubnormal := by unfold halfSubnormal; positivity
  have hu : (0 : ℚ) ≤ unitRoundoff := by unfold unitRoundoff; positivity
  by_cases h0 : q = 0
  · subst h0
    rw [roundF64_zero]
    simpa using hη
  by_cases hn : (2 : ℚ) ^ (-1022 : ℤ) ≤ |q|
  · have := abs_roundF64_sub_le_rel q hn
    unfold unitRoundoff
    linarith
  · have hpos : (0 : ℚ) < |q| := abs_pos.mpr h0
    have hlog : Int.log 2 |q| < -1022 := by
      rw [← Int.lt_zpow_iff_log_lt (by norm_num) hpos]
      simpa using not_le.mp hn
    have hulp : ulpExp q = -1074 := by
      unfold ulpExp
      rw [max_eq_right (by omega)]
      norm_num
    have h := abs_roundF64_sub_le q
    rw [hulp] at h
    have e : (2 : ℚ) ^ (-1074 : ℤ) / 2 = halfSubnormal := by
      unfold halfSubnormal
      rw [show (-1075 : ℤ) = -1074 + -1 by norm_num, zpow_add₀ (by norm_num), zpow_neg_one]
      ring
    rw [e] at h
    have : 0 ≤ |q| * unitRoundoff := mul_nonneg (abs_nonneg q) hu
    linarith

theorem fold_step_bound (E A x p u η k : ℚ) (hE : E ≤ (p - 1) * A + k * η * p) (hx : 0 ≤ x)
    (hp : 1 ≤ p) (hu : 0 ≤ u) (hη : 0 ≤ η) :
    (1 + u) * E + u * (A + x) + η
      ≤ (p * (1 + u) - 1) * (A + x) + (k + 1) * η * (p * (1 + u)) := by
  have h1 : (1 + u) * E ≤ (1 + u) * ((p - 1) * A + k * η * p) :=
    mul_le_mul_of_nonneg_left hE (by linarith)
  have h2 : 0 ≤ (1 + u) * (p - 1) * x :=
    mul_nonneg (mul_nonneg (by linarith) (by linarith)) hx
  have h3 : 0 ≤ η * (p * (1 + u) - 1) := by
    apply mul_nonneg hη
    nlinarith
  nlinarith

theorem abs_sum_le_sum_abs (l : List ℚ) : |l.sum| ≤ (l.map (fun a => |a|)).sum := by
  induction l with
  | nil => simp
  | cons a l ih =>
    simp only [List.sum_cons, List.map_cons]
    have := abs_add a l.sum
    linarith

/-- Error of the float64 running sum against the exact sum, after `l.length` roundings. -/
theorem foldl_fadd_error (l : List ℚ) :
    |l.foldl fadd 0 - l.sum|
      ≤ ((1 + unitRoundoff) ^ l.length - 1) * (l.map (fun a => |a|)).sum
        + (l.length : ℚ) * halfSubnormal * (1 + unitRoundoff) ^ l.length := by
  have hη : (0 : ℚ) ≤ halfSubnormal := by unfold halfSubnormal; positivity
  have hu : (0 : ℚ) ≤ unitRoundoff := by unfold unitRoundoff; positivity
  induction l using List.reverseRecOn with
  | nil => simp
  | append_singleton l a ih =>
    have hp : (1 : ℚ) ≤ (1 + unitRoundoff) ^ l.length := one_le_pow₀ (by linarith)
    have hT : |l.sum| ≤ (l.map (fun a => |a|)).sum := abs_sum_le_sum_abs l
    have hr := abs_roundF64_sub_le_gen (l.foldl fadd 0 + a)
    have hS : |l.foldl fadd 0 + a|
        ≤ |l.foldl fadd 0 - l.sum| + (l.map (fun a => |a|)).sum + |a| := by
      have e : l.foldl fadd 0 + a = (l.foldl fadd 0 - l.sum) + l.sum + a := by ring
      calc |l.foldl fadd 0 + a| = |(l.foldl fadd 0 - l.sum) + l.sum + a| := by rw [← e]
        _ ≤ |(l.foldl fadd 0 - l.sum) + l.sum| + |a| := abs_add _ _
        _ ≤ |l.foldl fadd 0 - l.sum| + |l.sum| + |a| := by
            have := abs_add (l.foldl fadd 0 - l.sum) l.sum
            linarith
        _ ≤ _ := by linarith
    have hd : |fadd (l.foldl fadd 0) a - (l.sum + a)|
        ≤ |roundF64 (l.foldl fadd 0 + a) - (l.foldl fadd 0 + a)| + |l.foldl fadd 0 - l.sum| := by
      have e : fadd (l.foldl fadd 0) a - (l.sum + a)
          = (roundF64 (l.foldl fadd 0 + a) - (l.foldl fadd 0 + a)) + (l.foldl fadd 0 - l.sum) := by
        unfold fadd
        ring
      rw [e]
      exact abs_add _ _
    have hstep := fold_step_bound |l.foldl fadd 0 - l.sum| (l.map (fun a => |a|)).sum |a|
      ((1 + unitRoundoff) ^ l.length) unitRoundoff halfSubnormal (l.length : ℚ) ih (abs_nonneg a)
      hp hu hη
    simp only [List.foldl_append, List.foldl_cons, List.foldl_nil, List.sum_append,
      List.sum_cons, List.sum_nil, add_zero, List.map_append, List.map_cons, List.map_nil,
      List.length_append, List.length_cons, List.length_nil, zero_add, pow_succ, Nat.cast_add,
      Nat.cast_one]
    have hmul : |l.foldl fadd 0 + a| * unitRoundoff
        ≤ (|l.foldl fadd 0 - l.sum| + (l.map (fun a => |a|)).sum + |a|) * unitRoundoff :=
      mul_le_mul_of_nonneg_right hS hu
    linarith

/-- The float64 mean of a list of values against their exact mean: one rounding per addition and
one for the division. -/
theorem groupMean_error (l : List ℚ) (hne : l ≠ []) (hlen : (l.length : Int) < 2 ^ 53) :
    |fdiv (l.foldl fadd 0) (float64OfInt (l.length : Int)) - l.sum / (l.length : ℚ)|
      ≤ ((1 + unitRoundoff) ^ (l.length + 1) - 1) * ((l.map (fun a => |a|)).sum / (l.length : ℚ))
        + halfSubnormal * ((1 + unitRoundoff) ^ (l.length + 1) + 1) := by
  have hη : (0 : ℚ) ≤ halfSubnormal := by unfold halfSubnormal; positivity
  have hu : (0 : ℚ) ≤ unitRoundoff := by unfold unitRoundoff; positivity
  have hn0 : l.length ≠ 0 := fun h => hne (List.length_eq_zero.mp h)
  have hn : (0 : ℚ) < (l.length : ℚ) := by exact_mod_cast Nat.pos_of_ne_zero hn0
  have hconv : float64OfInt (l.length : Int) = (l.length : ℚ) := by
    unfold float64OfInt
    rw [roundF64_intCast _ (by rw [abs_lt]; constructor <;> omega), Int.cast_natCast]
  have hE := foldl_fadd_error l
  have hT := abs_sum_le_sum_abs l
  have hr := abs_roundF64_sub_le_gen (l.foldl fadd 0 / (l.length : ℚ))
  rw [hconv]
  unfold fdiv
  generalize l.foldl fadd 0 = S at hE hr ⊢
  generalize l.sum = T at hE hT ⊢
  generalize (l.map (fun a => |a|)).sum = A at hE hT ⊢
  rw [pow_succ]
  generalize (1 + unitRoundoff) ^ l.length = p at hE ⊢
  generalize (l.length : ℚ) = n at hn hE hr ⊢
  generalize unitRoundoff = u at hu hr ⊢
  generalize halfSubnormal = η at hη hE hr ⊢
  have hdiff : |S / n - T / n| = |S - T| / n := by
    rw [← sub_div, abs_div, abs_of_pos hn]
  have hSn : |S / n| ≤ |S - T| / n + A / n := by
    rw [abs_div, abs_of_pos hn, ← add_div]
    apply div_le_div_of_nonneg_right _ hn.le
    have e : S = (S - T) + T := by ring
    calc |S| = |(S - T) + T| := by rw [← e]
      _ ≤ |S - T| + |T| := abs_add _ _
      _ ≤ |S - T| + A := by linarith
  have hE' : |S - T| / n ≤ (p - 1) * (A / n) + η * p := by
    rw [div_le_iff₀ hn]
    have e : ((p - 1) * (A / n) + η * p) * n = (p - 1) * A + n * η * p := by
      field_simp
      ring
    rw [e]
    exact hE
  have htri : |roundF64 (S / n) - T / n| ≤ |roundF64 (S / n) - S / n| + |S / n - T / n| := by
    have e : roundF64 (S / n) - T / n = (roundF64 (S / n) - S / n) + (S / n - T / n) := by ring
    rw [e]
    exact abs_add _ _
  have hmul1 : |S / n| * u ≤ (|S - T| / n + A / n) * u := mul_le_mul_of_nonneg_right hSn hu
  have hmul2 : (1 + u) * (|S - T| / n) ≤ (1 + u) * ((p - 1) * (A / n) + η * p) :=
    mul_le_mul_of_nonneg_left hE' (by linarith)
  rw [hdiff] at htri
  nlinarith
/-! ## Visit order and the group mean -/

theorem roundF64_18_5 : roundF64 (18 / 5) = 8106479329266893 / 2251799813685248 := by
  rw [roundF64_eq 1 8106479329266893 (by norm_num) (by norm_num [abs_of_pos])
    (by norm_num [abs_of_pos]) (by norm_num [abs_lt])]
  norm_num

theorem roundF64_19_5 : roundF64 (19 / 5) = 4278419646001971 / 1125899906842624 := by
  rw [roundF64_eq 1 8556839292003942 (by norm_num) (by norm_num [abs_of_pos])
    (by norm_num [abs_of_pos]) (by norm_num [abs_lt])]
  norm_num

theorem roundF64_17_8 : roundF64 (17 / 8) = 17 / 8 := by
  rw [roundF64_eq 1 4785074604081152 (by norm_num) (by norm_num [abs_of_pos])
    (by norm_num [abs_of_pos]) (by norm_num [abs_lt])]
  norm_num

theorem roundF64_sum_cb : roundF64 (6670956948042547 / 1125899906842624) = 6670956948042547 / 1125899906842624 := by
  rw [roundF64_eq 2 6670956948042547 (by norm_num) (by norm_num [abs_of_pos])
    (by norm_num [abs_of_pos]) (by norm_num [abs_lt])]
  norm_num

theorem roundF64_sum_cba : roundF64 (21448393225351987 / 2251799813685248) = 5362098306337997 / 562949953421312 := by
  rw [roundF64_eq 3 5362098306337997 (by norm_num) (by norm_num [abs_of_pos])
    (by norm_num [abs_of_pos]) (by norm_num [abs_lt])]
  norm_num

theorem roundF64_mean_cba : roundF64 (5362098306337997 / 1688849860263936) = 7149464408450663 / 2251799813685248 := by
  rw [roundF64_eq 1 7149464408450663 (by norm_num) (by norm_num [abs_of_pos])
    (by norm_num [abs_of_pos]) (by norm_num [abs_lt])]
  norm_num

theorem roundF64_sum_ca : roundF64 (12891553933348045 / 2251799813685248) = 3222888483337011 / 562949953421312 := by
  rw [roundF64_eq_tie 2 6445776966674022 (by norm_num) (by norm_num [abs_of_pos])
    (by norm_num [abs_of_pos]) (by norm_num)]
  norm_num

theorem roundF64_sum_cab : roundF64 (10724196612675993 / 1125899906842624) = 1340524576584499 / 140737488355328 := by
  rw [roundF64_eq_tie 3 5362098306337996 (by norm_num) (by norm_num [abs_of_pos])
    (by norm_num [abs_of_pos]) (by norm_num)]
  norm_num

theorem roundF64_mean_cab : roundF64 (1340524576584499 / 422212465065984) = 7149464408450661 / 2251799813685248 := by
  rw [roundF64_eq 1 7149464408450661 (by norm_num) (by norm_num [abs_of_pos])
    (by norm_num [abs_of_pos]) (by norm_num [abs_lt])]
  norm_num

set_option maxRecDepth 100000 in
theorem orderJournal1_entries :
    orderJournal1.Students.entries
      = [⟨3, Student.mk 3 "Сидорова" "Мария" [3, 2, 2, 2, 2, 2, 2, 2]⟩,
         ⟨2, Student.mk 2 "Петров" "Петр" [4, 4, 4, 4, 3]⟩,
         ⟨1, Student.mk 1 "Иванов" "Иван" [4, 4, 4, 3, 3]⟩] := by
  decide

set_option maxRecDepth 100000 in
theorem orderJournal2_entries :
    orderJournal2.Students.entries
      = [⟨3, Student.mk 3 "Сидорова" "Мария" [3, 2, 2, 2, 2, 2, 2, 2]⟩,
         ⟨1, Student.mk 1 "Иванов" "Иван" [4, 4, 4, 3, 3]⟩,
         ⟨2, Student.mk 2 "Петров" "Петр" [4, 4, 4, 4, 3]⟩] := by
  decide

theorem AverageScore_18_5 (id : Int) (l f : String) :
    (Student.mk id l f [4, 4, 4, 3, 3]).AverageScore = 8106479329266893 / 2251799813685248 := by
  rw [AverageScore_eq_roundF64 _ (by simp) (by norm_num) (by norm_num)]
  norm_num
  exact roundF64_18_5

theorem AverageScore_19_5 (id : Int) (l f : String) :
    (Student.mk id l f [4, 4, 4, 4, 3]).AverageScore = 4278419646001971 / 1125899906842624 := by
  rw [AverageScore_eq_roundF64 _ (by simp) (by norm_num) (by norm_num)]
  norm_num
  exact roundF64_19_5

theorem AverageScore_17_8 (id : Int) (l f : String) :
    (Student.mk id l f [3, 2, 2, 2, 2, 2, 2, 2]).AverageScore = 17 / 8 := by
  rw [AverageScore_eq_roundF64 _ (by simp) (by norm_num) (by norm_num)]
  norm_num
  exact roundF64_17_8

/-- What `GetGroupStatistics` computes as count and mean, in terms of the visit order. -/
theorem GetGroupStatistics_mean (j : Journal) (hne : j.Students.entries ≠ []) :
    ∃ st, j.GetGroupStatistics = some st ∧
      st.totalStudents = (j.rangeStudents.length : Int) ∧
      st.totalAverage
        = fdiv ((j.rangeStudents.map Student.AverageScore).foldl fadd 0)
            (float64OfInt (j.rangeStudents.length : Int)) := by
  have hlen : j.rangeStudents.length = j.Students.entries.length := by
    simp [Journal.rangeStudents]
  have hl0 : ¬ j.Students.entries.length = 0 := fun h => hne (List.length_eq_zero.mp h)
  refine ⟨_, by unfold Journal.GetGroupStatistics; rw [if_neg hl0], ?_, ?_⟩
  · simp only [hlen]
  · simp only [foldl_statisticsStep_fst, hlen]

theorem float64OfInt_three : float64OfInt 3 = 3 := by
  simpa [float64OfInt] using roundF64_intCast 3 (by decide)

theorem demoJournal_mean :
    ∃ st, demoJournal.GetGroupStatistics = some st ∧ st.totalStudents = 3 ∧
      st.totalAverage = 4878899596318037 / 1125899906842624 := by
  have hne : demoJournal.Students.entries ≠ [] := by
    intro h
    have h2 := demoJournal_students
    simp [Journal.rangeStudents, h] at h2
  obtain ⟨st, h1, h2, h3⟩ := GetGroupStatistics_mean demoJournal hne
  refine ⟨st, h1, ?_, ?_⟩
  · rw [h2, demoJournal_students]
    rfl
  · have hs : List.foldl fadd 0 [5, 7 / 2, 9 / 2] = 13 :=
      foldl_fadd_demo _ (List.reverse_perm [9 / 2, 7 / 2, 5])
    rw [h3, demoJournal_averages, hs, demoJournal_students]
    simp only [List.length_cons, List.length_nil]
    norm_num [float64OfInt_three, fdiv, roundF64_13_3]

theorem orderJournal1_mean :
    ∃ st, orderJournal1.GetGroupStatistics = some st ∧
      st.totalAverage = 7149464408450663 / 2251799813685248 := by
  have hne : orderJournal1.Students.entries ≠ [] := by
    rw [orderJournal1_entries]
    exact List.cons_ne_nil _ _
  obtain ⟨st, h1, _, h3⟩ := GetGroupStatistics_mean orderJournal1 hne
  refine ⟨st, h1, ?_⟩
  rw [h3]
  simp only [Journal.rangeStudents, orderJournal1_entries, List.map_cons, List.map_nil,
    AverageScore_18_5, AverageScore_19_5, AverageScore_17_8, List.foldl_cons, List.foldl_nil,
    List.length_cons, List.length_nil]
  norm_num [float64OfInt_three, fdiv, fadd, roundF64_17_8, roundF64_sum_cb, roundF64_sum_cba,
    roundF64_mean_cba]

theorem orderJournal2_mean :
    ∃ st, orderJournal2.GetGroupStatistics = some st ∧
      st.totalAverage = 7149464408450661 / 2251799813685248 := by
  have hne : orderJournal2.Students.entries ≠ [] := by
    rw [orderJournal2_entries]
    exact List.cons_ne_nil _ _
  obtain ⟨st, h1, _, h3⟩ := GetGroupStatistics_mean orderJournal2 hne
  refine ⟨st, h1, ?_⟩
  rw [h3]
  simp only [Journal.rangeStudents, orderJournal2_entries, List.map_cons, List.map_nil,
    AverageScore_18_5, AverageScore_19_5, AverageScore_17_8, List.foldl_cons, List.foldl_nil,
    List.length_cons, List.length_nil]
  norm_num [float64OfInt_three, fdiv, fadd, roundF64_17_8, roundF64_sum_ca, roundF64_sum_cab,
    roundF64_mean_cab]

/-! ## Claims -/

/-- C1: `Student.AddGrade g` returns an error exactly when `g < 2` or `g > 5`; on an error the
student (grade sequence included) is unchanged; on success the new grade sequence is the old
one with `g` appended at the end, and ID and names are unchanged. -/
theorem AddGrade_spec (s : Student) (g : Int) :
    ((s.AddGrade g).2 ≠ none ↔ (g < 2 ∨ g > 5)) ∧
    ((s.AddGrade g).2 ≠ none → (s.AddGrade g).1 = s) ∧
    ((s.AddGrade g).2 = none →
      (s.AddGrade g).1.Grades = s.Grades ++ [g] ∧ (s.AddGrade g).1.ID = s.ID ∧
      (s.AddGrade g).1.LastName = s.LastName ∧ (s.AddGrade g).1.FirstName = s.FirstName) := by
  unfold Student.AddGrade
  by_cases h : g < 2 ∨ g > 5
  · simp [h]
  · simp [h]

/-- C1 at a new student: grade 6 is refused and changes nothing, grade 5 is appended. -/
theorem AddGrade_spec_witness :
    ((NewStudent 1 "Иванов" "Иван").AddGrade 6).1 = NewStudent 1 "Иванов" "Иван" ∧
    ((NewStudent 1 "Иванов" "Иван").AddGrade 5).1.Grades = [] ++ [5] :=
  ⟨(AddGrade_spec (NewStudent 1 "Иванов" "Иван") 6).2.1 (by decide),
   ((AddGrade_spec (NewStudent 1 "Иванов" "Иван") 5).2.2 (by decide)).1⟩

/-- C2: for an id that is not a key of `j.Students` and any grade, `AddGradeToStudent` returns
the student-not-found error and leaves the journal unchanged (same students with the same ID,
names and grades, same `NextID`). -/
theorem AddGradeToStudent_unknown (j : Journal) (id grade : Int) (h : id ∉ j.Students) :
    j.AddGradeToStudent id grade = (j, some (errStudentNotFound id)) := by
  unfold Journal.AddGradeToStudent Journal.FindStudentByID
  rw [AList.lookup_eq_none.mpr h]

set_option maxRecDepth 100000 in
/-- C2 in the journal `main` sets up: id 7 is unknown there. -/
theorem AddGradeToStudent_unknown_witness :
    (7 : Int) ∉ demoJournal.Students ∧
    demoJournal.AddGradeToStudent 7 9 = (demoJournal, some (errStudentNotFound 7)) :=
  ⟨by decide, AddGradeToStudent_unknown demoJournal 7 9 (by decide)⟩

/-- C5: with `a = s.AverageScore`, `s.GetStatus` is "отличник" iff `a ≥ 4.5`, "хорошист" iff
`4.0 ≤ a < 4.5`, "троечник" iff `3.0 ≤ a < 4.0` and "неуспевающий" iff `a < 3.0`; a student
without grades is "неуспевающий", and an average on a boundary falls in the higher tier. -/
theorem GetStatus_spec (s : Student) :
    (s.GetStatus = "отличник" ↔ s.AverageScore ≥ 9 / 2) ∧
    (s.GetStatus = "хорошист" ↔ 4 ≤ s.AverageScore ∧ s.AverageScore < 9 / 2) ∧
    (s.GetStatus = "троечник" ↔ 3 ≤ s.AverageScore ∧ s.AverageScore < 4) ∧
    (s.GetStatus = "неуспевающий" ↔ s.AverageScore < 3) ∧
    (s.Grades = [] → s.GetStatus = "неуспевающий") ∧
    (s.AverageScore = 9 / 2 → s.GetStatus = "отличник") ∧
    (s.AverageScore = 4 → s.GetStatus = "хорошист") ∧
    (s.AverageScore = 3 → s.GetStatus = "троечник") := by
  have d1 : "отличник" ≠ "хорошист" := by decide
  have d2 : "отличник" ≠ "троечник" := by decide
  have d3 : "отличник" ≠ "неуспевающий" := by decide
  have d4 : "хорошист" ≠ "троечник" := by decide
  have d5 : "хорошист" ≠ "неуспевающий" := by decide
  have d6 : "троечник" ≠ "неуспевающий" := by decide
  have hempty : s.Grades = [] → s.AverageScore = 0 := by
    intro h
    simp [Student.AverageScore, h]
  unfold Student.GetStatus
  simp only
  by_cases h1 : s.AverageScore ≥ 9 / 2
  · rw [if_pos h1]
    have h2 : (4 : ℚ) ≤ s.AverageScore := by linarith
    have h3 : (3 : ℚ) ≤ s.AverageScore := by linarith
    refine ⟨by simp [h1], by simp [d1, not_lt.mpr h1], by simp [d2]; intro; linarith,
      by simp [d3]; linarith, ?_, by simp, ?_, ?_⟩
    · intro h
      rw [hempty h] at h1
      norm_num at h1
    · intro h; rw [h] at h1; norm_num at h1
    · intro h; rw [h] at h1; norm_num at h1
  · rw [if_neg h1]
    by_cases h2 : s.AverageScore ≥ 4
    · rw [if_pos h2]
      have h3 : (3 : ℚ) ≤ s.AverageScore := by linarith
      refine ⟨by simp [d1.symm, h1], by simp; exact ⟨h2, not_le.mp h1⟩,
        by simp [d4]; intro; linarith, by simp [d5]; linarith, ?_, ?_, by simp, ?_⟩
      · intro h
        rw [hempty h] at h2
        norm_num at h2
      · intro h; exact absurd (ge_of_eq h) h1
      · intro h; rw [h] at h2; norm_num at h2
    · rw [if_neg h2]
      by_cases h3 : s.AverageScore ≥ 3
      · rw [if_pos h3]
        refine ⟨by simp [d2.symm, h1], by simp [d4.symm]; intro h; exact absurd h h2,
          by simp; exact ⟨h3, not_le.mp h2⟩, by simp [d6]; linarith, ?_, ?_, ?_, by simp⟩
        · intro h
          rw [hempty h] at h3
          norm_num at h3
        · intro h; exact absurd (ge_of_eq h) h1
        · intro h; exact absurd (ge_of_eq h) h2
      · rw [if_neg h3]
        refine ⟨by simp [d3.symm, h1], by simp [d5.symm]; intro h; exact absurd h h2,
          by simp [d6.symm]; intro h; exact absurd h h3, by simp; exact not_le.mp h3,
          by simp, ?_, ?_, ?_⟩
        · intro h; exact absurd (ge_of_eq h) h1
        · intro h; exact absurd (ge_of_eq h) h2
        · intro h; exact absurd (ge_of_eq h) h3

/-- C5 at concrete students: without grades the status is "неуспевающий"; with grades [5,4]
the average is exactly 4.5 and the status "отличник". -/
theorem GetStatus_spec_witness :
    (studentWithGrades []).GetStatus = "неуспевающий" ∧
    (studentWithGrades [5, 4]).GetStatus = "отличник" :=
  ⟨(GetStatus_spec (studentWithGrades [])).2.2.2.2.1 rfl,
   (GetStatus_spec (studentWithGrades [5, 4])).2.2.2.2.2.1 (AverageScore_5_4 _ _ _)⟩

/-- C7: deleting a present id reports a removal, after which `FindStudentByID` reports the id
absent while every other student and `NextID` are unchanged; deleting an absent id reports no
removal and leaves students and `NextID` unchanged. -/
theorem deleteStudent_spec (j : Journal) (id : Int) :
    (id ∈ j.Students →
      (j.deleteStudent id).2 = true ∧
      (j.deleteStudent id).1.FindStudentByID id = none ∧
      (∀ k, k ≠ id → (j.deleteStudent id).1.FindStudentByID k = j.FindStudentByID k) ∧
      (j.deleteStudent id).1.NextID = j.NextID) ∧
    (id ∉ j.Students → j.deleteStudent id = (j, false)) := by
  constructor
  · intro h
    obtain ⟨s, hs⟩ := Option.isSome_iff_exists.mp (AList.lookup_isSome.mpr h)
    unfold Journal.deleteStudent Journal.FindStudentByID
    rw [hs]
    refine ⟨rfl, AList.lookup_erase id j.Students, ?_, rfl⟩
    intro k hk
    exact AList.lookup_erase_ne hk
  · intro h
    unfold Journal.deleteStudent Journal.FindStudentByID
    rw [AList.lookup_eq_none.mpr h]

set_option maxRecDepth 100000 in
/-- C7 in the journal `main` sets up: id 2 is present, id 7 is not. -/
theorem deleteStudent_spec_witness :
    (demoJournal.deleteStudent 2).1.FindStudentByID 2 = none ∧
    demoJournal.deleteStudent 7 = (demoJournal, false) :=
  ⟨((deleteStudent_spec demoJournal 2).1 (by decide)).2.1,
   (deleteStudent_spec demoJournal 7).2 (by decide)⟩
/-- C3, as the code has it: starting from `NewJournal`, along every sequence of `AddStudent`,
`AddGradeToStudent` and deletions that calls `AddStudent` fewer than 2^63 times, the ids
returned by `AddStudent` are 1, 2, 3, ... in call order, hence strictly increasing and never
repeated, deletions in between notwithstanding. -/
theorem issued_ids_below_overflow (ops : List Op) (h : countAdds ops < 2 ^ 63) :
    (NewJournal.run ops).2 = (List.range (countAdds ops)).map (fun (i : Nat) => (i : Int) + 1) ∧
    (NewJournal.run ops).2.Pairwise (fun a b => a < b) ∧
    (NewJournal.run ops).2.Nodup := by
  have hids : (NewJournal.run ops).2
      = (List.range (countAdds ops)).map (fun (i : Nat) => (i : Int) + 1) := by
    rw [run_ids ops NewJournal 1 (by norm_num [NewJournal, wrap64])]
    apply List.map_congr_left
    intro i hi
    rw [List.mem_range] at hi
    rw [wrap64_of_range (by omega) (by omega)]
    ring
  have hlt : (NewJournal.run ops).2.Pairwise (fun a b => a < b) := by
    rw [hids, List.pairwise_map]
    refine (List.pairwise_lt_range (countAdds ops)).imp ?_
    intro a b hab
    omega
  exact ⟨hids, hlt, hlt.imp (fun hab => ne_of_lt hab)⟩

set_option maxRecDepth 100000 in
/-- C3 on the example of the specification: add returns 1, delete 1, add returns 2. -/
theorem issued_ids_below_overflow_witness :
    (NewJournal.run [.addStudent "Иванов" "Иван", .delete 1, .addStudent "Петров" "Петр"]).2
      = [1, 2] := by
  have h := (issued_ids_below_overflow
    [.addStudent "Иванов" "Иван", .delete 1, .addStudent "Петров" "Петр"] (by decide)).1
  rw [h]
  decide

/-- C3 fails once the 64-bit counter wraps: after 2^63 rounds of adding a student and deleting
it again the returned ids are no longer increasing (the last one is -2^63). -/
theorem issued_ids_wrap :
    ¬ (NewJournal.run (churn (2 ^ 63))).2.Pairwise (fun a b => a < b) := by
  rw [run_ids (churn (2 ^ 63)) NewJournal 1 (by norm_num [NewJournal, wrap64]), countAdds_churn]
  intro h
  rw [List.pairwise_iff_getElem] at h
  have h1 := h 0 (2 ^ 63 - 1) (by simp) (by simp) (by norm_num)
  simp only [List.getElem_map, List.getElem_range] at h1
  norm_num [wrap64] at h1

/-- C9, as the code has it: the well-formedness predicate holds for `NewJournal`; `AddStudent`
preserves it unless `NextID` is the largest `int`; `AddGradeToStudent` (successful or not) and
deletion preserve it; hence it holds in every journal reached from `NewJournal` by a sequence of
these operations with fewer than 2^63 - 1 calls of `AddStudent`. -/
theorem WF_invariant :
    NewJournal.WF ∧
    (∀ (j : Journal) (lastName firstName : String), j.WF → j.NextID < 2 ^ 63 - 1 →
      (j.AddStudent lastName firstName).1.WF) ∧
    (∀ (j : Journal) (studentID grade : Int), j.WF → (j.AddGradeToStudent studentID grade).1.WF) ∧
    (∀ (j : Journal) (studentID : Int), j.WF → (j.deleteStudent studentID).1.WF) ∧
    (∀ ops : List Op, countAdds ops < 2 ^ 63 - 1 → (NewJournal.run ops).1.WF) := by
  have h0 : NewJournal.WF := by
    intro e he
    simp [NewJournal] at he
  refine ⟨h0, WF_AddStudent, WF_AddGradeToStudent, WF_deleteStudent, ?_⟩
  intro ops hops
  apply WF_run ops NewJournal h0
  · norm_num [NewJournal]
  · simp only [NewJournal]
    omega

set_option maxRecDepth 100000 in
/-- C9 in the journal `main` sets up, itself reached from `NewJournal`. -/
theorem WF_invariant_witness :
    (demoJournal.AddStudent "Кузнецов" "Олег").1.WF ∧
    (demoJournal.AddGradeToStudent 2 5).1.WF ∧
    (demoJournal.AddGradeToStudent 2 7).1.WF ∧
    (demoJournal.deleteStudent 2).1.WF ∧
    demoJournal.WF :=
  ⟨WF_invariant.2.1 demoJournal "Кузнецов" "Олег" (by decide) (by decide),
   WF_invariant.2.2.1 demoJournal 2 5 (by decide),
   WF_invariant.2.2.1 demoJournal 2 7 (by decide),
   WF_invariant.2.2.2.1 demoJournal 2 (by decide),
   WF_invariant.2.2.2.2 _ (by decide)⟩

/-- C9 fails at the largest `int`: an empty journal with `NextID = 2^63 - 1` is well-formed, and
after `AddStudent` the wrapped `NextID` lies below the key just inserted. -/
theorem WF_AddStudent_wrap :
    journalAtMaxID.WF ∧ ¬ (journalAtMaxID.AddStudent "Иванов" "Иван").1.WF := by
  constructor
  · intro e he
    simp [journalAtMaxID] at he
  · intro h
    have h1 := h ⟨2 ^ 63 - 1, NewStudent (2 ^ 63 - 1) "Иванов" "Иван"⟩
      (by simp [Journal.AddStudent, journalAtMaxID, AList.insert_entries])
    have h2 := h1.2.1
    norm_num [Journal.AddStudent, journalAtMaxID, wrap64] at h2
/-- C6, as the code has it: `AverageScore` is exactly 0 for an empty grade sequence; otherwise,
when the sum `S` of the grades and their number `n` are below 2^53 in magnitude (the `int` sum
does not wrap and both convert to float64 unchanged), it is `S / n` rounded to the nearest
float64: within `|S / n| * 2^-53` of the exact quotient, and equal to it whenever the quotient
is itself a float64; for grades [5,4] it is exactly 4.5. -/
theorem AverageScore_spec (s : Student) :
    (s.Grades = [] → s.AverageScore = 0) ∧
    (s.Grades ≠ [] → |s.Grades.sum| < 2 ^ 53 → (s.Grades.length : Int) < 2 ^ 53 →
      s.AverageScore = roundF64 ((s.Grades.sum : ℚ) / (s.Grades.length : ℚ)) ∧
      |s.AverageScore - (s.Grades.sum : ℚ) / (s.Grades.length : ℚ)|
        ≤ |(s.Grades.sum : ℚ) / (s.Grades.length : ℚ)| * (2 : ℚ) ^ (-53 : ℤ) ∧
      (∀ m k : Int, |m| < 2 ^ 53 → -1074 ≤ k →
        (s.Grades.sum : ℚ) / (s.Grades.length : ℚ) = (m : ℚ) * (2 : ℚ) ^ k →
        s.AverageScore = (s.Grades.sum : ℚ) / (s.Grades.length : ℚ))) ∧
    (s.Grades = [5, 4] → s.AverageScore = 9 / 2) := by
  refine ⟨?_, ?_, ?_⟩
  · intro h
    simp [Student.AverageScore, h]
  · intro hne hsum hlen
    have hav := AverageScore_eq_roundF64 s hne hsum hlen
    refine ⟨hav, ?_, ?_⟩
    · rw [hav]
      by_cases h0 : s.Grades.sum = 0
      · rw [h0]
        simp [roundF64_zero]
      · apply abs_roundF64_sub_le_rel
        have hn0 : s.Grades.length ≠ 0 := fun h => hne (List.length_eq_zero.mp h)
        have hnpos : (0 : ℚ) < (s.Grades.length : ℚ) := by
          exact_mod_cast Nat.pos_of_ne_zero hn0
        have hnle : (s.Grades.length : ℚ) ≤ 2 ^ 53 := by
          have : ((s.Grades.length : Int) : ℚ) < ((2 ^ 53 : Int) : ℚ) := by exact_mod_cast hlen
          push_cast at this
          exact this.le
        have hs1 : (1 : ℚ) ≤ |(s.Grades.sum : ℚ)| := by
          have : (1 : Int) ≤ |s.Grades.sum| := Int.one_le_abs h0
          exact_mod_cast this
        rw [abs_div, abs_of_pos hnpos, le_div_iff₀ hnpos]
        calc (2 : ℚ) ^ (-1022 : ℤ) * (s.Grades.length : ℚ)
            ≤ (2 : ℚ) ^ (-1022 : ℤ) * 2 ^ 53 :=
              mul_le_mul_of_nonneg_left hnle (by positivity)
          _ = (2 : ℚ) ^ (-969 : ℤ) := by
              rw [← zpow_natCast, ← zpow_add₀ (by norm_num)]
              norm_num
          _ ≤ 1 := zpow_le_one_of_nonpos₀ (by norm_num) (by norm_num)
          _ ≤ |(s.Grades.sum : ℚ)| := hs1
    · intro m k hm hk he
      rw [hav, he]
      exact roundF64_exact m k hm hk
  · intro h
    rw [AverageScore_eq_roundF64 s (by simp [h]) (by simp [h]) (by simp [h]), h]
    have h := roundF64_exact 9 (-1) (by decide) (by decide)
    norm_num at h ⊢
    exact h

/-- C6 at concrete grade sequences: none, [5,5,4] and [5,4]. -/
theorem AverageScore_spec_witness :
    (studentWithGrades []).AverageScore = 0 ∧
    |(studentWithGrades [5, 5, 4]).AverageScore - 14 / 3| ≤ 14 / 3 * (2 : ℚ) ^ (-53 : ℤ) ∧
    (studentWithGrades [5, 4]).AverageScore = 9 / 2 := by
  refine ⟨(AverageScore_spec (studentWithGrades [])).1 rfl, ?_,
    (AverageScore_spec (studentWithGrades [5, 4])).2.2 rfl⟩
  have h := ((AverageScore_spec (studentWithGrades [5, 5, 4])).2.1
    (by decide) (by decide) (by decide)).2.1
  norm_num [studentWithGrades, abs_of_pos] at h ⊢
  exact h

/-- C6 fails as stated: for grades [5,5,4] the result is the float64 next to 14/3, not the exact
quotient; and the sum of the grades [2^63 - 1, 1] wraps, giving -2^62 instead of 2^62. -/
theorem AverageScore_not_exact :
    (studentWithGrades [5, 5, 4]).AverageScore ≠ ((5 + 5 + 4 : Int) : ℚ) / 3 ∧
    (studentWithGrades [2 ^ 63 - 1, 1]).AverageScore ≠ ((2 ^ 63 - 1 + 1 : Int) : ℚ) / 2 := by
  constructor
  · rw [AverageScore_eq_roundF64 _ (by simp [studentWithGrades]) (by decide) (by decide)]
    have h : roundF64 (14 / 3) = 5254199565265579 / 1125899906842624 := by
      rw [roundF64_eq 2 5254199565265579 (by norm_num) (by norm_num [abs_of_pos])
        (by norm_num [abs_of_pos]) (by norm_num [abs_lt])]
      norm_num
    norm_num [studentWithGrades]
    rw [h]
    norm_num
  · have hs : sumGrades [2 ^ 63 - 1, 1] = -2 ^ 63 := by
      rw [sumGrades_eq]
      norm_num [wrap64]
    have h1 : roundF64 ((-2 ^ 63 : Int) : ℚ) = -2 ^ 63 := by
      have h := roundF64_exact (-1) 63 (by decide) (by decide)
      norm_num at h ⊢
      exact h
    have h2 : roundF64 ((2 : Int) : ℚ) = 2 := by
      simpa using roundF64_intCast 2 (by decide)
    have h3 : roundF64 (-2 ^ 63 / 2) = -2 ^ 62 := by
      have h := roundF64_exact (-1) 62 (by decide) (by decide)
      norm_num at h ⊢
      exact h
    norm_num at hs h1 h2 h3
    simp only [Student.AverageScore, studentWithGrades, List.length_cons, List.length_nil]
    norm_num [fdiv, float64OfInt, hs, h1, h2, h3]

/-- C10 at the failing input: in the journal reached from `NewJournal` by adding one student and
grading it 4 a hundred times and 3 once, all grades are within [2,5] and the student's average
(about 3.9901) is below 4.0, yet preset 1, `FilterByAverageScore(0, 3.99)`, returns nobody, and
neither does preset 2, so the student is in neither result. -/
theorem filterBelowFour_misses (S : SliceSorter) :
    nearFourJournal.WF ∧
    (∃ s ∈ nearFourJournal.rangeStudents, s.AverageScore < 4 ∧
      s ∉ nearFourJournal.filterBelowFour S ∧ s ∉ nearFourJournal.filterFourAndAbove S) ∧
    nearFourJournal.filterBelowFour S = [] ∧
    nearFourJournal.filterFourAndAbove S = [] := by
  have hwf : nearFourJournal.WF := WF_run nearFourOps NewJournal
    (by intro e he; simp [NewJournal] at he) (by norm_num [NewJournal])
    (by
      have : countAdds nearFourOps = 1 := by decide
      rw [this]
      norm_num [NewJournal])
  have h1 : nearFourJournal.filterBelowFour S = [] := by
    unfold Journal.filterBelowFour Journal.FilterByAverageScore
    simp only [nearFourJournal_students, List.filter_cons, List.filter_nil, nearFour_average,
      const399_eq, F64.le, F64.ge]
    norm_num
    exact List.Perm.eq_nil (S.perm _ [])
  have h2 : nearFourJournal.filterFourAndAbove S = [] := by
    unfold Journal.filterFourAndAbove Journal.FilterByAverageScore
    simp only [nearFourJournal_students, List.filter_cons, List.filter_nil, nearFour_average,
      F64.le, F64.ge]
    norm_num
    exact List.Perm.eq_nil (S.perm _ [])
  refine ⟨hwf, ⟨nearFourStudent, ?_, ?_, ?_, ?_⟩, h1, h2⟩
  · rw [nearFourJournal_students]
    exact List.mem_singleton.mpr rfl
  · rw [nearFour_average]
    norm_num
  · rw [h1]
    exact List.not_mem_nil _
  · rw [h2]
    exact List.not_mem_nil _
/-- C8, as the code has it: for a non-empty journal `GetGroupStatistics` computes: the total
count, which is the number of students; the group mean, which is the float64 sum of the students'
`AverageScore()`, added up in the order the map is visited, divided in float64 by the count: a
mean of the per-student means up to rounding, which with fewer than 2^53 students differs from
the exact mean of the `AverageScore()` values by at most `(1 + 2^-53)^(n+1) - 1` times the mean
of their absolute values, plus `2^-1075 * ((1 + 2^-53)^(n+1) + 1)`; and for each status the
number of students whose `GetStatus()` is that status, the four tier counts adding up to the
total.  For three students with averages 4.5, 3.5 and 5.0 the count is 3 and the group mean is
the float64 next to 13/3, 4878899596318037/2^50, within `13/3 * 2^-53` of 13/3. -/
theorem GetGroupStatistics_spec (j : Journal) (hne : j.Students.entries ≠ []) :
    ∃ st, j.GetGroupStatistics = some st ∧
      st.totalStudents = j.rangeStudents.length ∧
      st.totalAverage
        = fdiv ((j.rangeStudents.map Student.AverageScore).foldl fadd 0)
            (float64OfInt (j.rangeStudents.length : Int)) ∧
      ((j.rangeStudents.length : Int) < 2 ^ 53 →
        |st.totalAverage
            - (j.rangeStudents.map Student.AverageScore).sum / (j.rangeStudents.length : ℚ)|
          ≤ ((1 + unitRoundoff) ^ (j.rangeStudents.length + 1) - 1)
              * ((j.rangeStudents.map (fun s => |s.AverageScore|)).sum
                  / (j.rangeStudents.length : ℚ))
            + halfSubnormal * ((1 + unitRoundoff) ^ (j.rangeStudents.length + 1) + 1)) ∧
      (∀ status, st.count status
        = (j.rangeStudents.countP (fun s => decide (s.GetStatus = status)) : Int)) ∧
      st.count "отличник" + st.count "хорошист" + st.count "троечник"
        + st.count "неуспевающий" = st.totalStudents ∧
      ((j.rangeStudents.map Student.AverageScore).Perm [9 / 2, 7 / 2, 5] →
        st.totalStudents = 3 ∧
        st.totalAverage = 4878899596318037 / 1125899906842624 ∧
        |st.totalAverage - 13 / 3| ≤ 13 / 3 * unitRoundoff) := by
  have hlen : j.rangeStudents.length = j.Students.entries.length := by
    simp [Journal.rangeStudents]
  have hl0 : ¬ j.Students.entries.length = 0 := fun h => hne (List.length_eq_zero.mp h)
  have hr0 : j.rangeStudents ≠ [] := by
    intro h
    rw [h] at hlen
    exact hl0 hlen.symm
  have hcount : ∀ status,
      (((j.rangeStudents.foldl statisticsStep (0, ∅)).2.lookup status).getD 0 : Int)
        = (j.rangeStudents.countP (fun s => decide (s.GetStatus = status)) : Int) := by
    intro status
    rw [foldl_statisticsStep_count]
    simp
  refine ⟨_, by unfold Journal.GetGroupStatistics; rw [if_neg hl0], ?_, ?_, ?_, ?_, ?_, ?_⟩
  · simp only [hlen]
  · simp only [foldl_statisticsStep_fst, hlen]
  · intro hn
    have hb := groupMean_error (j.rangeStudents.map Student.AverageScore)
      (by simpa using hr0) (by simpa using hn)
    simp only [List.length_map, List.map_map] at hb
    simp only [foldl_statisticsStep_fst, ← hlen]
    exact hb
  · intro status
    exact hcount status
  · simp only [GroupStatistics.count, hcount, hlen.symm]
    have h := countP_tiers j.rangeStudents
    exact_mod_cast h
  · intro hp
    have h3 : j.Students.entries.length = 3 := by
      rw [← hlen, ← List.length_map j.rangeStudents Student.AverageScore, hp.length_eq]
      rfl
    have hsum := foldl_fadd_demo _ hp
    simp only [foldl_statisticsStep_fst, hsum, h3, Nat.cast_ofNat, float64OfInt_three]
    refine ⟨trivial, ?_, ?_⟩
    · unfold fdiv
      exact roundF64_13_3
    · unfold fdiv unitRoundoff
      rw [roundF64_13_3]
      norm_num [abs_le]

/-- C8 in the journal `main` sets up, whose students have the averages 5.0, 3.5 and 4.5. -/
theorem GetGroupStatistics_spec_witness :
    ∃ st, demoJournal.GetGroupStatistics = some st ∧ st.totalStudents = 3 ∧
      st.totalAverage = 4878899596318037 / 1125899906842624 ∧
      |st.totalAverage - (5 + (7 / 2 + (9 / 2 + 0))) / 3|
        ≤ ((1 + unitRoundoff) ^ 4 - 1) * ((|5| + (|7 / 2| + (|9 / 2| + 0))) / 3)
          + halfSubnormal * ((1 + unitRoundoff) ^ 4 + 1) := by
  have hne : demoJournal.Students.entries ≠ [] := by
    intro h
    have h2 := demoJournal_students
    simp [Journal.rangeStudents, h] at h2
  obtain ⟨st, h1, _, _, h4, _, _, h7⟩ := GetGroupStatistics_spec demoJournal hne
  have hp := h7 (by rw [demoJournal_averages]; exact List.reverse_perm [9 / 2, 7 / 2, 5])
  have hb := h4 (by rw [demoJournal_students]; decide)
  have hav : demoJournal.rangeStudents.map (fun s => |s.AverageScore|)
      = [|5|, |7 / 2|, |9 / 2|] := by
    have h := congrArg (List.map (fun q : ℚ => |q|)) demoJournal_averages
    simpa [List.map_map, Function.comp] using h
  rw [demoJournal_averages, hav, demoJournal_students] at hb
  exact ⟨st, h1, hp.1, hp.2.1, by simpa using hb⟩

/-- C8 fails as stated: in the journal `main` sets up (averages 4.5, 3.5, 5.0) the group mean is
the float64 next to 13/3 and not 13/3; and one and the same map of three students (averages
3.6, 3.8, 2.125) gets a group mean above 3.175 when visited in one order and below 3.175 when
visited in another, so the mean is not a function of the students alone. -/
theorem groupMean_not_exact :
    (demoJournal.rangeStudents.map Student.AverageScore).Perm [9 / 2, 7 / 2, 5] ∧
    (∃ st, demoJournal.GetGroupStatistics = some st ∧ st.totalStudents = 3 ∧
      st.totalAverage ≠ 13 / 3) ∧
    orderJournal1.Students.entries.Perm orderJournal2.Students.entries ∧
    orderJournal1.NextID = orderJournal2.NextID ∧
    (∃ st₁ st₂, orderJournal1.GetGroupStatistics = some st₁ ∧
      orderJournal2.GetGroupStatistics = some st₂ ∧
      st₂.totalAverage < 127 / 40 ∧ 127 / 40 < st₁.totalAverage) := by
  refine ⟨?_, ?_, ?_, rfl, ?_⟩
  · rw [demoJournal_averages]
    exact List.reverse_perm [9 / 2, 7 / 2, 5]
  · obtain ⟨st, h1, h2, h3⟩ := demoJournal_mean
    refine ⟨st, h1, h2, ?_⟩
    rw [h3]
    norm_num
  · rw [orderJournal1_entries, orderJournal2_entries]
    exact List.Perm.cons _ (List.Perm.swap _ _ _)
  · obtain ⟨st₁, h1, h2⟩ := orderJournal1_mean
    obtain ⟨st₂, h3, h4⟩ := orderJournal2_mean
    refine ⟨st₁, st₂, h1, h3, ?_, ?_⟩
    · rw [h4]
      norm_num
    · rw [h2]
      norm_num

/-- C4: `FilterByAverageScore(min, max)` returns (1) a rearrangement of exactly the students of
the journal whose `AverageScore()` satisfies `min <= avg <= max`: each of them once, nobody
else; (2) in order of non-increasing `AverageScore()`.  For students with averages
4.5, 3.0, 5.0, 4.0 and bounds (4.0, 5.0) the averages of the result are [5.0, 4.5, 4.0]. -/
theorem FilterByAverageScore_spec (S : SliceSorter) (j : Journal) (minScore maxScore : F64) :
    (j.FilterByAverageScore S minScore maxScore).Perm
      (j.rangeStudents.filter (fun s =>
        F64.le minScore (F64.fin s.AverageScore) && F64.le (F64.fin s.AverageScore) maxScore)) ∧
    (∀ s, s ∈ j.FilterByAverageScore S minScore maxScore ↔
      s ∈ j.rangeStudents ∧ F64.le minScore (F64.fin s.AverageScore) = true ∧
        F64.le (F64.fin s.AverageScore) maxScore = true) ∧
    (j.FilterByAverageScore S minScore maxScore).Pairwise
      (fun a b => a.AverageScore ≥ b.AverageScore) ∧
    ((j.rangeStudents.map Student.AverageScore).Perm [9 / 2, 3, 5, 4] →
      (j.FilterByAverageScore S (F64.fin 4) (F64.fin 5)).map Student.AverageScore
        = [5, 9 / 2, 4]) := by
  have hperm : ∀ lo hi : F64, (j.FilterByAverageScore S lo hi).Perm
      (j.rangeStudents.filter (fun s =>
        F64.le lo (F64.fin s.AverageScore) && F64.le (F64.fin s.AverageScore) hi)) := by
    intro lo hi
    exact S.perm _ _
  have hsorted : ∀ lo hi : F64, (j.FilterByAverageScore S lo hi).Pairwise
      (fun a b => a.AverageScore ≥ b.AverageScore) := by
    intro lo hi
    exact sort_by_average S _
  refine ⟨hperm _ _, ?_, hsorted _ _, ?_⟩
  · intro s
    rw [(hperm minScore maxScore).mem_iff, List.mem_filter, Bool.and_eq_true]
  · intro hp
    have h1 : ((j.FilterByAverageScore S (F64.fin 4) (F64.fin 5)).map Student.AverageScore).Perm
        [5, 9 / 2, 4] := by
      have a1 := (hperm (F64.fin 4) (F64.fin 5)).map Student.AverageScore
      have a2 : (j.rangeStudents.filter (fun s =>
          F64.le (F64.fin 4) (F64.fin s.AverageScore)
            && F64.le (F64.fin s.AverageScore) (F64.fin 5))).map Student.AverageScore
          = (j.rangeStudents.map Student.AverageScore).filter
              (fun q => F64.le (F64.fin 4) (F64.fin q) && F64.le (F64.fin q) (F64.fin 5)) := by
        rw [List.filter_map]
        rfl
      have a3 := hp.filter
        (fun q => F64.le (F64.fin 4) (F64.fin q) && F64.le (F64.fin q) (F64.fin 5))
      have a4 : ([9 / 2, 3, 5, 4] : List ℚ).filter
          (fun q => F64.le (F64.fin 4) (F64.fin q) && F64.le (F64.fin q) (F64.fin 5))
          = [9 / 2, 5, 4] := by
        norm_num [List.filter, F64.le]
      rw [a2] at a1
      rw [a4] at a3
      exact (a1.trans a3).trans (List.Perm.swap 5 (9 / 2) [4])
    have h2 : ((j.FilterByAverageScore S (F64.fin 4) (F64.fin 5)).map
        Student.AverageScore).Sorted (fun a b : ℚ => a ≥ b) := by
      unfold List.Sorted
      rw [List.pairwise_map]
      exact hsorted _ _
    have h3 : ([5, 9 / 2, 4] : List ℚ).Sorted (fun a b : ℚ => a ≥ b) := by
      unfold List.Sorted
      norm_num
    exact List.eq_of_perm_of_sorted h1 h2 h3

/-- C4 on four students with the averages 4.0, 5.0, 3.0 and 4.5, sorted by insertion sort. -/
theorem FilterByAverageScore_spec_witness :
    (fourStudentsJournal.FilterByAverageScore insertionSorter (F64.fin 4) (F64.fin 5)).map
      Student.AverageScore = [5, 9 / 2, 4] :=
  (FilterByAverageScore_spec insertionSorter fourStudentsJournal (F64.fin 4) (F64.fin 5)).2.2.2
    (by
      rw [fourStudentsJournal_averages]
      exact List.reverse_perm [9 / 2, 3, 5, 4])
end GroupJournal
